import Mathlib

/-!
Verification development for the trace-to-topology reconstruction and
causal-path engine of CARET_analyze.

The Python sources are shallowly embedded: pure data classes become Lean
structures, mutation through `deepcopy`-isolated state becomes value
passing, the (possibly non-terminating) recursive depth-first search is
given an explicit fuel parameter, and fallible operations return `Option`.
-/

namespace CaretAnalyze

/-- `GraphNode` from `graph_search.py`: a graph node carrying a callback
unique name; Python `__eq__` compares the names, which coincides with
structural equality of this one-field structure. -/
structure GraphNode where
  name : String
deriving DecidableEq, Repr

/-- `GraphBranch` from `graph_search.py`: a directed edge with the
per-traversal `arrived` flag (initialized to `False` by the Python
constructor). -/
structure GraphBranch where
  arrived : Bool
  src_node : GraphNode
  dst_node : GraphNode
deriving DecidableEq, Repr

/-- Python `GraphBranch.__eq__`: compares `src_node` and `dst_node` only,
ignoring the `arrived` flag. -/
def GraphBranch.beq (a b : GraphBranch) : Bool :=
  a.src_node == b.src_node && a.dst_node == b.dst_node

/-- The Python constructor `GraphBranch(src, dst)`: `arrived` starts `False`. -/
def GraphBranch.init (src dst : GraphNode) : GraphBranch :=
  { arrived := false, src_node := src, dst_node := dst }

/-- Embedding of
`branches_ = deepcopy(branches); branch_ = next(filter(lambda b_: b_ == branch, branches_)); branch_.arrived = True`:
the first branch equal (in the `GraphBranch.beq` sense) to `b` has its
`arrived` flag set; the rest of the copy is unchanged.  The `[]` case is
unreachable at call sites (`b` is always drawn from the list itself). -/
def markFirstArrived (b : GraphBranch) : List GraphBranch → List GraphBranch
  | [] => []
  | x :: xs =>
    if GraphBranch.beq x b then { x with arrived := true } :: xs
    else x :: markFirstArrived b xs

/-- The `for branch in target_branches` loop body of
`GraphSearcher.search.search_local`.  `next` stands for the recursive call
to `search_local` at the next fuel level; `path` and `branches` are the
enclosing call's state; the accumulating `paths` list is threaded through
(Python appends to a shared list).  Python appends `branch` itself (not the
marked copy) to the path, and recurses on `branch_.dst_node`, where
`branch_ == branch` forces `branch_.dst_node == branch.dst_node`, so the
recursion target is `b.dst_node`. -/
def search_loop
    (next : GraphNode → List GraphBranch → List GraphBranch →
      List (List GraphBranch) → Option (List (List GraphBranch)))
    (path : List GraphBranch) (branches : List GraphBranch) :
    List GraphBranch → List (List GraphBranch) → Option (List (List GraphBranch))
  | [], paths => some paths
  | b :: rest, paths =>
    if b.arrived then search_loop next path branches rest paths
    else
      match next b.dst_node (path ++ [b]) (markFirstArrived b branches) paths with
      | none => none
      | some paths2 => search_loop next path branches rest paths2

/-- `search_local` of `GraphSearcher.search`, with an explicit fuel for the
recursion depth (the Python function can recurse without bound, e.g. when
the branch list contains two branches with equal endpoints; exhausted fuel
yields `none`).  When the current node equals the destination and the
path-so-far is non-empty, the path is recorded; outgoing branches are then
explored regardless. -/
def search_local (dst : GraphNode) :
    Nat → GraphNode → List GraphBranch → List GraphBranch →
    List (List GraphBranch) → Option (List (List GraphBranch))
  | 0, _, _, _, _ => none
  | Nat.succ fuel, node, path, branches, paths =>
    let paths1 := if node = dst ∧ 0 < path.length then paths ++ [path] else paths
    search_loop (search_local dst fuel) path branches
      (branches.filter fun x => x.src_node == node) paths1

/-- `GraphSearcher.search(src_node, dst_node)`: runs `search_local` from the
source node with an empty path and an empty result accumulator over the
searcher's branch list. -/
def GraphSearcher.search (branches : List GraphBranch) (src_node dst_node : GraphNode)
    (fuel : Nat) : Option (List (List GraphBranch)) :=
  search_local dst_node fuel src_node [] branches []

/-- `GraphPath.to_graph_nodes`: empty for the empty path, otherwise the
first branch's source followed by every branch's destination. -/
def to_graph_nodes : List GraphBranch → List GraphNode
  | [] => []
  | b :: rest => b.src_node :: (b :: rest).map (fun x => x.dst_node)

/-- `CallbackBase` as used by `graph_search.py`: only the
`callback_unique_name` attribute is accessed there. -/
structure CallbackBase where
  callback_unique_name : String
deriving DecidableEq, Repr

/-- `Communication` as used by `CallbackPathSercher.search`: an optional
publisher-side callback and the subscription-side callback. -/
structure Communication where
  callback_publish : Option CallbackBase
  callback_subscription : CallbackBase

/-- `VariablePassing` as used by `CallbackPathSercher.search`. -/
structure VariablePassing where
  callback_write : CallbackBase
  callback_read : CallbackBase

/-- The branch set built by `CallbackPathSercher.search`: one branch per
communication whose `callback_publish` is resolved, then one branch per
variable passing; all branches are freshly constructed (`arrived = False`). -/
def buildBranches (communications : List Communication)
    (variable_passings : List VariablePassing) : List GraphBranch :=
  communications.filterMap (fun c =>
    c.callback_publish.map fun cp =>
      GraphBranch.init { name := cp.callback_unique_name }
        { name := c.callback_subscription.callback_unique_name })
  ++ variable_passings.map (fun v =>
    GraphBranch.init { name := v.callback_write.callback_unique_name }
      { name := v.callback_read.callback_unique_name })

/-- The Python dict `{callback.callback_unique_name: callback for callback in
self._callbacks}`: later entries overwrite earlier ones, so a lookup returns
the last callback carrying the name. -/
def lookupCallback (callbacks : List CallbackBase) (name : String) :
    Option CallbackBase :=
  (callbacks.filter fun c => c.callback_unique_name == name).getLast?

/-- `CallbackPathSercher._to_path`: maps each visited graph node back to the
callback of that unique name; a missing name raises `KeyError` in Python,
embedded as `none`. -/
def to_path (callbacks : List CallbackBase) (graph_path : List GraphBranch) :
    Option (List CallbackBase) :=
  (to_graph_nodes graph_path).mapM fun n => lookupCallback callbacks n.name

/-- `CallbackPathSercher.search(start, end)`: builds the branch set from
communications and variable passings, runs the graph search, and translates
every returned graph path to a callback path.  `callbacks` stands for the
flattened per-node callback list built in the constructor. -/
def CallbackPathSercher.search (callbacks : List CallbackBase)
    (communications : List Communication) (variable_passings : List VariablePassing)
    (start_callback_unique_name end_callback_unique_name : String) (fuel : Nat) :
    Option (List (List CallbackBase)) := do
  let graph_paths ← GraphSearcher.search (buildBranches communications variable_passings)
    { name := start_callback_unique_name } { name := end_callback_unique_name } fuel
  graph_paths.mapM (to_path callbacks)

/-- The (source, destination) pair of a branch: Python `GraphBranch.__eq__`
compares exactly this pair. -/
def edgePair (b : GraphBranch) : GraphNode × GraphNode := (b.src_node, b.dst_node)

/-- A path with correct endpoints: non-empty, first branch leaves `s`, last
branch enters `d`. -/
def GoodPath (s d : GraphNode) (p : List GraphBranch) : Prop :=
  0 < p.length ∧ p.head?.map GraphBranch.src_node = some s ∧
    p.getLast?.map GraphBranch.dst_node = some d

instance (s d : GraphNode) (p : List GraphBranch) : Decidable (GoodPath s d p) := by
  unfold GoodPath; infer_instance

/-! Concrete graphs used by counterexamples and witnesses. -/

def nodeA : GraphNode := { name := "A" }

def nodeB : GraphNode := { name := "B" }

def nodeC : GraphNode := { name := "C" }

def branchAB : GraphBranch := GraphBranch.init nodeA nodeB

def branchBA : GraphBranch := GraphBranch.init nodeB nodeA

def branchBC : GraphBranch := GraphBranch.init nodeB nodeC

def branchCB : GraphBranch := GraphBranch.init nodeC nodeB

/-! ## Records and the publisher binder (`lttng_info.py`) -/

/-- One row of a `RecordsInterface` stream: an association list from column
names to integer values (handles and nanosecond timestamps).  `columns` of
the Python record are the keys. -/
structure Record where
  cells : List (String × Int)
deriving DecidableEq, Repr

instance : Inhabited Record := ⟨{ cells := [] }⟩

/-- `col in data.columns`. -/
def Record.hasColumn (r : Record) (c : String) : Bool :=
  (r.cells.find? fun p => p.1 == c).isSome

/-- `data.get(col)` as an optional value. -/
def Record.get? (r : Record) (c : String) : Option Int :=
  (r.cells.find? fun p => p.1 == c).map Prod.snd

/-- `data.get(col)`; call sites guard with `hasColumn` (or the column is
always present), so the fallback value is never observed. -/
def Record.get (r : Record) (c : String) : Int :=
  (r.get? c).getD 0

/-- The record streams the binder consults (`RecordsSource`). -/
structure RecordsSource where
  callback_records : List Record
  inter_proc_comm_records : List Record
  intra_proc_comm_records : List Record
deriving DecidableEq, Repr

/-- `TimerCallbackValueLttng` with the fields used by `lttng_info.py`. -/
structure TimerCallbackValueLttng where
  callback_id : String
  node_id : String
  node_name : String
  symbol : String
  period_ns : Int
  publish_topic_names : Option (List String)
  callback_object : Int
deriving DecidableEq, Repr

/-- `SubscriptionCallbackValueLttng` with the fields used by
`lttng_info.py`; `callback_object_intra` is optional. -/
structure SubscriptionCallbackValueLttng where
  callback_id : String
  node_id : String
  node_name : String
  symbol : String
  subscribe_topic_name : String
  publish_topic_names : Option (List String)
  callback_object : Int
  callback_object_intra : Option Int
deriving DecidableEq, Repr

/-- `PublisherValueLttng` with the fields used by `lttng_info.py`. -/
structure PublisherValueLttng where
  node_name : String
  node_id : String
  topic_name : String
  callback_ids : Option (List String)
  publisher_handle : Int
deriving DecidableEq, Repr

/-- The `Union[TimerCallbackValueLttng, SubscriptionCallbackValueLttng]`
argument of `PublisherBinder._is_consistent`. -/
inductive CallbackValueLttng where
  | timer (cb : TimerCallbackValueLttng)
  | sub (cb : SubscriptionCallbackValueLttng)
deriving DecidableEq, Repr

/-- `callback_info.callback_object` on the union type. -/
def CallbackValueLttng.callback_object : CallbackValueLttng → Int
  | .timer cb => cb.callback_object
  | .sub cb => cb.callback_object

/-- `NodeValue` as consumed by `can_bind`. -/
structure NodeValue where
  node_name : String
  node_id : Option String
deriving DecidableEq, Repr

/-- `CallbackGroupValueLttng` with the fields used by `lttng_info.py`. -/
structure CallbackGroupValueLttng where
  callback_group_type_name : String
  node_name : String
  node_id : String
  callback_ids : List String
  callback_group_id : String
  callback_group_addr : Int
  executor_addr : Int
deriving DecidableEq, Repr

/-- `PublisherBinder.TARGET_RECORD_MAX_INDEX`. -/
def TARGET_RECORD_MAX_INDEX : Nat := 10

/-- `select_record_index` of `PublisherBinder._get_publish_time`:
`min(len(records) - 1, TARGET_RECORD_MAX_INDEX)`. -/
def select_record_index (publisher_records : List Record) : Nat :=
  min (publisher_records.length - 1) TARGET_RECORD_MAX_INDEX

/-- `PublisherBinder._get_publish_time`: prefer an inter-process publish
record, fall back to an intra-process one, picking the record at
`select_record_index`; `None` when the publisher never published. -/
def PublisherBinder.get_publish_time (source : RecordsSource)
    (publisher_info : PublisherValueLttng) : Option Int :=
  let inter := source.inter_proc_comm_records.filter
    fun x => x.get "publisher_handle" == publisher_info.publisher_handle
  if 0 < inter.length then
    some ((inter.getD (select_record_index inter) default).get "rclcpp_publish_timestamp")
  else
    let intra := source.intra_proc_comm_records.filter
      fun x => x.get "publisher_handle" == publisher_info.publisher_handle
    if 0 < intra.length then
      some ((intra.getD (select_record_index intra) default).get
        "rclcpp_intra_publish_timestamp")
    else none

/-- The callback execution records consulted by `_is_consistent_inter`:
`callback_records` filtered by `callback_object`. -/
def callbackRecordsFor (source : RecordsSource) (callback_object : Int) : List Record :=
  source.callback_records.filter fun x => x.get "callback_object" == callback_object

/-- The callback execution records consulted by `_is_consistent_intra`:
`callback_records` filtered by the optional `callback_object_intra` (in
Python an `int == None` comparison is `False`, so a missing intra identity
selects nothing). -/
def intraRecordsFor (source : RecordsSource) (callback_object_intra : Option Int) :
    List Record :=
  source.callback_records.filter fun x =>
    match callback_object_intra with
    | some v => x.get "callback_object" == v
    | none => false

/-- The record scan of `_is_consistent_inter`: skip records lacking either
timestamp column; `True` on the first interval strictly containing the
publish time; `False` on the first interval lying strictly after it; `None`
when the scan is inconclusive. -/
def is_consistent_loop (publish_time : Int) : List Record → Option Bool
  | [] => none
  | d :: rest =>
    if d.hasColumn "callback_start_timestamp" = false then
      is_consistent_loop publish_time rest
    else if d.hasColumn "callback_end_timestamp" = false then
      is_consistent_loop publish_time rest
    else if d.get "callback_start_timestamp" < publish_time ∧
        publish_time < d.get "callback_end_timestamp" then some true
    else if d.get "callback_start_timestamp" > publish_time ∧
        d.get "callback_end_timestamp" > publish_time then some false
    else is_consistent_loop publish_time rest

/-- The record scan of `_is_consistent_intra`: identical to the inter scan
except that an inconclusive scan returns `False` rather than `None`. -/
def is_consistent_intra_loop (publish_time : Int) : List Record → Bool
  | [] => false
  | d :: rest =>
    if d.hasColumn "callback_start_timestamp" = false then
      is_consistent_intra_loop publish_time rest
    else if d.hasColumn "callback_end_timestamp" = false then
      is_consistent_intra_loop publish_time rest
    else if d.get "callback_start_timestamp" < publish_time ∧
        publish_time < d.get "callback_end_timestamp" then true
    else if d.get "callback_start_timestamp" > publish_time ∧
        d.get "callback_end_timestamp" > publish_time then false
    else is_consistent_intra_loop publish_time rest

/-- `PublisherBinder._is_consistent_inter`. -/
def PublisherBinder.is_consistent_inter (source : RecordsSource) (publish_time : Int)
    (callback_info : CallbackValueLttng) : Option Bool :=
  is_consistent_loop publish_time (callbackRecordsFor source callback_info.callback_object)

/-- `PublisherBinder._is_consistent_intra`. -/
def PublisherBinder.is_consistent_intra (source : RecordsSource) (publish_time : Int)
    (callback : SubscriptionCallbackValueLttng) : Bool :=
  is_consistent_intra_loop publish_time
    (intraRecordsFor source callback.callback_object_intra)

/-- `PublisherBinder._is_consistent`: `False` without a publish time; `True`
when the inter-process check says `True`; otherwise subscriptions fall back
to the intra-process check and timers to `False`. -/
def PublisherBinder.is_consistent (source : RecordsSource)
    (publisher_info : PublisherValueLttng) (callback_info : CallbackValueLttng) : Bool :=
  match PublisherBinder.get_publish_time source publisher_info with
  | none => false
  | some publish_time =>
    match PublisherBinder.is_consistent_inter source publish_time callback_info with
    | some true => true
    | _ =>
      match callback_info with
      | .sub s => PublisherBinder.is_consistent_intra source publish_time s
      | .timer _ => false

/-- `PublisherBinder.can_bind`: the executed body is the hardcoded
`return False` fast path (the heuristic below it is unreachable dead code,
embedded separately as `can_bind_heuristic`). -/
def PublisherBinder.can_bind (_node : NodeValue) : Bool :=
  false

/-- The unreachable heuristic after the `return False` in
`PublisherBinder.can_bind`: true only when the node resolves to exactly one
callback group and that group is not reentrant. -/
def can_bind_heuristic (cbgs : List CallbackGroupValueLttng) : Bool :=
  match cbgs with
  | [cbg] => if cbg.callback_group_type_name == "reentrant" then false else true
  | _ => false

/-- Modelled from the spec: `PublisherBinder._update_timer_cb_publish_topics`
replaces `timer_cbs[timer_cbs.index(update_target)]` with a copy of
`update_target` carrying the new `publish_topic_names`.  `list.index`
compares value objects with the equality of `value_objects.py`, which is not
under `src/`; the spec fixes `callback_id` as the stable identity of a
callback, so matching is modelled as `callback_id` equality.  A failed
lookup raises in Python and is unreachable at the call sites (the list
always holds an entry with the target's id); it is embedded as the identity. -/
def update_timer_cb_publish_topics (timer_cbs : List TimerCallbackValueLttng)
    (update_target : TimerCallbackValueLttng) (publish_topic_names : List String) :
    List TimerCallbackValueLttng :=
  match timer_cbs with
  | [] => []
  | x :: xs =>
    if x.callback_id == update_target.callback_id then
      { update_target with publish_topic_names := some publish_topic_names } :: xs
    else x :: update_timer_cb_publish_topics xs update_target publish_topic_names

/-- Modelled from the spec: `PublisherBinder._update_sub_cb_publish_topics`,
with the same `callback_id`-based modelling of `list.index` as
`update_timer_cb_publish_topics`. -/
def update_sub_cb_publish_topics (sub_cbs : List SubscriptionCallbackValueLttng)
    (update_target : SubscriptionCallbackValueLttng) (publish_topic_names : List String) :
    List SubscriptionCallbackValueLttng :=
  match sub_cbs with
  | [] => []
  | x :: xs =>
    if x.callback_id == update_target.callback_id then
      { update_target with publish_topic_names := some publish_topic_names } :: xs
    else x :: update_sub_cb_publish_topics xs update_target publish_topic_names

/-- `PublisherBinder.bind_pub_topics_and_timer_cbs`.  `publishers` stands
for `self._info.get_publishers_without_cb_bind(node_name)`.  First every
callback's `publish_topic_names` is reset to the empty tuple in
`callback_list`; then the `for publisher, cb in product(publishers,
callbacks)` loop skips inconsistent pairs and, on the first consistent pair,
binds `(publisher.topic_name,) + cb.publish_topic_names` (the `cb` from the
original `callbacks` argument) and `break`s out of the whole loop. -/
def bind_pub_topics_and_timer_cbs (source : RecordsSource)
    (publishers : List PublisherValueLttng)
    (callbacks : List TimerCallbackValueLttng) : List TimerCallbackValueLttng :=
  let callback_list := callbacks.foldl
    (fun lst cb => update_timer_cb_publish_topics lst cb []) callbacks
  let pubs := publishers.filter
    fun x => x.topic_name != "/parameter_events" && x.topic_name != "/rosout"
  match (pubs.product callbacks).find?
      (fun pc => PublisherBinder.is_consistent source pc.1 (.timer pc.2)) with
  | none => callback_list
  | some (publisher, cb) =>
    update_timer_cb_publish_topics callback_list cb
      (publisher.topic_name :: cb.publish_topic_names.getD [])

/-- `PublisherBinder.bind_pub_topics_and_sub_cbs`.  Unlike the timer
variant, the system-topic subscriptions are filtered out first, and the
product iterates over the already-reset `callback_list`, so the bound
callback's previous topics are the freshly inserted empty tuple. -/
def bind_pub_topics_and_sub_cbs (source : RecordsSource)
    (publishers : List PublisherValueLttng)
    (callbacks_info : List SubscriptionCallbackValueLttng) :
    List SubscriptionCallbackValueLttng :=
  let system_topics := ["/parameter_events", "/rosout", "/clock"]
  let filtered := callbacks_info.filter
    fun x => !(system_topics.contains x.subscribe_topic_name)
  let callback_list := filtered.foldl
    (fun lst cb => update_sub_cb_publish_topics lst cb []) filtered
  let pubs := publishers.filter fun x => !(system_topics.contains x.topic_name)
  match (pubs.product callback_list).find?
      (fun pc => PublisherBinder.is_consistent source pc.1 (.sub pc.2)) with
  | none => callback_list
  | some (publisher, cb_info) =>
    update_sub_cb_publish_topics callback_list cb_info
      (publisher.topic_name :: cb_info.publish_topic_names.getD [])

/-- The binding guard of `LttngInfo._get_timer_callbacks`: timer callbacks
are enriched only when `binder.can_bind(node)` holds and the callback list
is non-empty. -/
def get_timer_callbacks_with_binding (source : RecordsSource) (node : NodeValue)
    (timer_cbs : List TimerCallbackValueLttng)
    (publishers : List PublisherValueLttng) : List TimerCallbackValueLttng :=
  if PublisherBinder.can_bind node = true ∧ 0 < timer_cbs.length then
    bind_pub_topics_and_timer_cbs source publishers timer_cbs
  else timer_cbs

/-- A timer callback with `publish_topic_names` reset to the empty tuple, as
done by the initial loop of the binder pass. -/
def resetTimerTopics (cb : TimerCallbackValueLttng) : TimerCallbackValueLttng :=
  { cb with publish_topic_names := some [] }

/-- A subscription callback with `publish_topic_names` reset to the empty
tuple, as done by the initial loop of the subscription binder pass. -/
def resetSubTopics (cb : SubscriptionCallbackValueLttng) : SubscriptionCallbackValueLttng :=
  { cb with publish_topic_names := some [] }

/-! ## Heap model of `GraphSearcher.search`

The pure embedding above identifies Python's `deepcopy` with value copying.
To settle the frame claim — `search` never mutates the branch objects the
searcher was constructed with — the mutable object graph is modelled
explicitly: a store of `GraphBranch` cells addressed by index, branch lists
as lists of cell indices, `deepcopy` as allocation of fresh cells at the end
of the store, and `branch_.arrived = True` as a store update.  (As in the
search's actual inputs, a branch list is taken to hold pairwise distinct
objects; `deepcopy`'s memoization of aliased duplicates is not modelled.) -/

/-- The object store: one cell per `GraphBranch` object. -/
abbrev Store : Type := List GraphBranch

/-- The number of allocated cells. -/
def Store.size (s : Store) : Nat := List.length s

/-- Dereference a branch object; all traversed references are in bounds, so
the fallback value is never observed. -/
def derefB (s : Store) (r : Nat) : GraphBranch :=
  ((s : List GraphBranch).get? r).getD (GraphBranch.init { name := "" } { name := "" })

/-- Dereference a list of branch references. -/
def derefList (s : Store) (refs : List Nat) : List GraphBranch :=
  refs.map (derefB s)

/-- Dereference a list of paths of branch references. -/
def derefPaths (s : Store) (paths : List (List Nat)) : List (List GraphBranch) :=
  paths.map (derefList s)

/-- The references to `n` freshly allocated cells starting at `base`. -/
def freshRefs : Nat → Nat → List Nat
  | _, 0 => []
  | base, Nat.succ n => base :: freshRefs (base + 1) n

/-- `deepcopy` of a list of branch objects: the store extended with one
fresh cell per list position, each holding the current value of the copied
object.  (As noted above, aliased duplicates inside one list — which
`deepcopy`'s memo table would collapse — are not modelled; the search's
branch and path lists hold pairwise distinct objects.) -/
def copyStore (s : Store) (refs : List Nat) : Store :=
  List.append s (derefList s refs)

/-- `branch_ = next(filter(lambda b_: b_ == branch, branches_));
branch_.arrived = True` on the store: the first referenced branch equal (in
the `GraphBranch.beq` sense) to `bval` is updated with its `arrived` flag
set. -/
def markFirstRefArrived (s : Store) (bval : GraphBranch) : List Nat → Store
  | [] => s
  | r :: rest =>
    if GraphBranch.beq (derefB s r) bval then
      s.set r { derefB s r with arrived := true }
    else markFirstRefArrived s bval rest

/-- The store after one loop iteration's `branches_ = deepcopy(branches)`
followed by marking the first branch of the copy equal to the traversed
branch `r`. -/
def markStore (s : Store) (branchRefs : List Nat) (r : Nat) : Store :=
  markFirstRefArrived (copyStore s branchRefs) (derefB s r)
    (freshRefs (Store.size s) branchRefs.length)

/-- The store after the iteration's subsequent `path_ = deepcopy(path)`. -/
def pathStore (s : Store) (branchRefs pathRefs : List Nat) (r : Nat) : Store :=
  copyStore (markStore s branchRefs r) pathRefs

/-- The branch loop of `search_local` on the store (compare `search_loop`):
each iteration deep-copies the branch list (fresh cells at the end of the
store), marks the first branch equal to the traversed one inside the copy,
deep-copies the path and appends the traversed branch object itself to the
copy, and recurses on the copies. -/
def search_loopH
    (next : GraphNode → List Nat → List Nat → List (List Nat) → Store →
      Option (Store × List (List Nat)))
    (pathRefs branchRefs : List Nat) :
    List Nat → List (List Nat) → Store → Option (Store × List (List Nat))
  | [], accs, s => some (s, accs)
  | r :: rest, accs, s =>
    if (derefB s r).arrived then search_loopH next pathRefs branchRefs rest accs s
    else
      match next (derefB s r).dst_node
          (freshRefs (Store.size (markStore s branchRefs r)) pathRefs.length ++ [r])
          (freshRefs (Store.size s) branchRefs.length) accs
          (pathStore s branchRefs pathRefs r) with
      | none => none
      | some (s4, accs2) => search_loopH next pathRefs branchRefs rest accs2 s4

/-- `search_local` on the store, with the same fuel discipline as
`search_local`. -/
def search_localH (dst : GraphNode) :
    Nat → GraphNode → List Nat → List Nat → List (List Nat) → Store →
    Option (Store × List (List Nat))
  | 0, _, _, _, _, _ => none
  | Nat.succ fuel, node, pathRefs, branchRefs, accs, s =>
    let accs1 := if node = dst ∧ 0 < pathRefs.length then accs ++ [pathRefs] else accs
    search_loopH (search_localH dst fuel) pathRefs branchRefs
      (branchRefs.filter fun r => (derefB s r).src_node == node) accs1 s

/-- `GraphSearcher.search` on the store: the searcher's state is the pair of
the store and the references of `self._branches`. -/
def searchH (s : Store) (branchRefs : List Nat) (src_node dst_node : GraphNode)
    (fuel : Nat) : Option (Store × List (List Nat)) :=
  search_localH dst_node fuel src_node [] branchRefs [] s

/-- The prefix of the store existing before a call survives it untouched:
at least as many cells, with identical contents. -/
def StorePreserves (s s' : Store) : Prop :=
  Store.size s ≤ Store.size s' ∧
    ∀ i < Store.size s, (s' : List GraphBranch).get? i = (s : List GraphBranch).get? i

/-- All references point into the store. -/
def ValidRefs (s : Store) (refs : List Nat) : Prop :=
  ∀ r ∈ refs, r < Store.size s

instance (s : Store) (refs : List Nat) : Decidable (ValidRefs s refs) :=
  inferInstanceAs (Decidable (∀ r ∈ refs, r < Store.size s))

/-! ## Record composition (`Lttng.compose_variable_passing_records`) -/

/-- `records.drop_columns(cols)` applied to one record: removes the cells of
the named columns. -/
def Record.drop_columns (r : Record) (cols : List String) : Record :=
  { cells := r.cells.filter fun p => !(cols.contains p.1) }

/-- `records.rename_columns(renames)` applied to one record: renames the
keys of matching cells. -/
def Record.rename_columns (r : Record) (renames : List (String × String)) : Record :=
  { cells := r.cells.map fun p =>
      match renames.find? (fun q => q.1 == p.1) with
      | some q => (q.2, p.2)
      | none => p }

/-- Modelled from the spec: the right-hand record chosen by the sequential
join for one left record — among the right records carrying the stamp
column with a stamp no earlier than `lv`, the one with the earliest stamp
(the record module implementing `merge_sequencial` is not under `src/`). -/
def findEarliest (key : String) (lv : Int) (rs : List Record) : Option Record :=
  rs.foldl (fun acc r =>
    if r.hasColumn key = true ∧ lv ≤ r.get key then
      match acc with
      | none => some r
      | some best => if r.get key < best.get key then some r else acc
    else acc) none

/-- Modelled from the spec: `merge_sequencial(left, right, left_stamp_key,
right_stamp_key, join_key=None, how='left')` — each left record is matched
to the earliest right record whose stamp occurs no earlier than the left
stamp; unmatched left records keep an absent right side (left-outer).  The
record module is not under `src/`. -/
def merge_sequencial (left_records right_records : List Record)
    (left_stamp_key right_stamp_key : String) : List Record :=
  left_records.map fun l =>
    match findEarliest right_stamp_key (l.get left_stamp_key) right_records with
    | none => l
    | some r => { cells := l.cells ++ r.cells }

/-- Stable insertion into a list sorted ascending by the given stamp
column. -/
def insertByKey (key : String) (r : Record) : List Record → List Record
  | [] => [r]
  | x :: xs => if r.get key ≤ x.get key then r :: x :: xs else x :: insertByKey key r xs

/-- Modelled from the spec: `records.sort(key)` — ascending by the stamp
column (the record module is not under `src/`). -/
def sortByKey (key : String) (l : List Record) : List Record :=
  l.foldr (insertByKey key) []

/-- `Lttng.compose_variable_passing_records`: the read stream drops
`callback_end_timestamp` and renames its identity column; the write stream
renames its identity column and drops `callback_start_timestamp`; the two
are sequentially joined on (write end, read start), sorted ascending by
`callback_end_timestamp`, and stripped of the renamed identity columns.
`write_records` and `read_records` stand for
`self._records.get_callback_records` of the two callbacks. -/
def compose_variable_passing_records (write_records read_records : List Record) :
    List Record :=
  let read2 := read_records.map fun r =>
    (r.drop_columns ["callback_end_timestamp"]).rename_columns
      [("callback_object", "read_callback_object")]
  let write2 := write_records.map fun r =>
    (r.rename_columns [("callback_object", "write_callback_object")]).drop_columns
      ["callback_start_timestamp"]
  let merged := merge_sequencial write2 read2
    "callback_end_timestamp" "callback_start_timestamp"
  let sorted := sortByKey "callback_end_timestamp" merged
  sorted.map fun r => r.drop_columns ["read_callback_object", "write_callback_object"]

/-! ## DataFrame reconstruction (`DataFrameFormatted` and
`LttngInfo._get_callback_groups`)

Raw tables of `Ros2DataModel` are typed rows; a table (or a required join
column of it) being absent — the condition under which pandas `merge`
raises `KeyError` — is modelled as the table being `none`.  Volatile
columns (timestamp, tid, rmw_handle) are dropped by `merge` before joining
and never influence the joined rows, so they are omitted from the row
types. -/

/-- A row of `data.callback_groups` (projected to the selected columns). -/
structure CbgRawRow where
  callback_group_addr : Nat
  group_type_name : String
  executor_addr : Nat
deriving DecidableEq, Repr

/-- A row of `data.callback_groups_static`. -/
structure CbgStaticRow where
  entities_collector_addr : Nat
  callback_group_addr : Nat
  group_type_name : String
deriving DecidableEq, Repr

/-- A row of `data.executors_static`. -/
structure ExecutorStaticRow where
  entities_collector_addr : Nat
  executor_addr : Nat
  executor_type_name : String
deriving DecidableEq, Repr

/-- A row of the formatted callback-group table built by `_build_cbg_df`. -/
structure CbgRow where
  callback_group_id : String
  callback_group_addr : Nat
  group_type_name : String
  executor_addr : Nat
deriving DecidableEq, Repr

/-- Inner `pd.merge` of the static callback-group and executor tables on
`entities_collector_addr` (left-major row order, as pandas produces). -/
def mergeStatic (cbg_static : List CbgStaticRow) (exec_static : List ExecutorStaticRow) :
    List CbgRawRow :=
  cbg_static.flatMap fun a =>
    (exec_static.filter fun b =>
      b.entities_collector_addr == a.entities_collector_addr).map fun b =>
      { callback_group_addr := a.callback_group_addr,
        group_type_name := a.group_type_name, executor_addr := b.executor_addr }

/-- The scan behind `df.drop_duplicates()`: drops every element already in
`seen`, keeping first occurrences. -/
def dedupKeepFirstAux {α : Type} [DecidableEq α] (seen : List α) :
    List α → List α
  | [] => []
  | x :: xs =>
    if x ∈ seen then dedupKeepFirstAux seen xs
    else x :: dedupKeepFirstAux (x :: seen) xs

/-- `df.drop_duplicates()`: keeps the first occurrence of each row value. -/
def dedupKeepFirst {α : Type} [DecidableEq α] (l : List α) : List α :=
  dedupKeepFirstAux [] l

/-- The executor-conflict resolution of `_build_cbg_df`: for every group of
rows sharing a `callback_group_addr`, all indices but the last are dropped;
a row survives exactly when no later row carries its address. -/
def keepLastPerAddr : List CbgRow → List CbgRow
  | [] => []
  | r :: rest =>
    if rest.any (fun x => x.callback_group_addr == r.callback_group_addr) then
      keepLastPerAddr rest
    else r :: keepLastPerAddr rest

/-- The concatenated raw callback-group rows: the dynamic table, plus the
static tables (merged on `entities_collector_addr`) when both are
non-empty. -/
def cbgConcat (callback_groups : List CbgRawRow) (cbg_static : List CbgStaticRow)
    (exec_static : List ExecutorStaticRow) : List CbgRawRow :=
  if 0 < cbg_static.length ∧ 0 < exec_static.length then
    callback_groups ++ mergeStatic cbg_static exec_static
  else callback_groups

/-- The formatted rows of `_build_cbg_df` just before the executor-conflict
resolution: id column added (`callback_group_{addr}`), columns selected,
exact duplicates dropped keeping first occurrences. -/
def cbgRowsDedup (callback_groups : List CbgRawRow) (cbg_static : List CbgStaticRow)
    (exec_static : List ExecutorStaticRow) : List CbgRow :=
  dedupKeepFirst ((cbgConcat callback_groups cbg_static exec_static).map fun r =>
    { callback_group_id := "callback_group_" ++ toString r.callback_group_addr,
      callback_group_addr := r.callback_group_addr,
      group_type_name := r.group_type_name, executor_addr := r.executor_addr })

/-- The number of executor-conflict warnings `_build_cbg_df` logs: one per
distinct `callback_group_addr` having at least two (deduplicated) rows. -/
def cbgWarnCount (rows : List CbgRow) : Nat :=
  (((rows.map CbgRow.callback_group_addr).dedup).filter fun a =>
    2 ≤ (rows.filter fun r => r.callback_group_addr == a).length).length

/-- `DataFrameFormatted._build_cbg_df`: the formatted callback-group table
together with the number of non-fatal executor-conflict warnings logged. -/
def build_cbg_df (callback_groups : List CbgRawRow) (cbg_static : List CbgStaticRow)
    (exec_static : List ExecutorStaticRow) : List CbgRow × Nat :=
  let rows := cbgRowsDedup callback_groups cbg_static exec_static
  (keepLastPerAddr rows, cbgWarnCount rows)

/-- A row of `data.timers`. -/
structure TimerRow where
  timer_handle : Nat
  period : Int
deriving DecidableEq, Repr

/-- A row of `data.timer_node_links`. -/
structure TimerNodeLinkRow where
  timer_handle : Nat
  node_handle : Nat
deriving DecidableEq, Repr

/-- A row of `data.callback_objects` (`reference` is renamed to the joined
handle column by the builders). -/
structure CallbackObjectRow where
  reference : Nat
  callback_object : Nat
deriving DecidableEq, Repr

/-- A row of `data.callback_symbols`. -/
structure CallbackSymbolRow where
  callback_object : Nat
  symbol : String
deriving DecidableEq, Repr

/-- A row of `data.callback_group_timer`. -/
structure CallbackGroupTimerRow where
  timer_handle : Nat
  callback_group_addr : Nat
deriving DecidableEq, Repr

/-- A row of `data.subscriptions`. -/
structure SubscriptionRow where
  subscription_handle : Nat
  node_handle : Nat
  topic_name : String
  depth : Int
deriving DecidableEq, Repr

/-- A row of `data.subscription_objects`. -/
structure SubscriptionObjectRow where
  subscription_handle : Nat
  subscription : Nat
deriving DecidableEq, Repr

/-- A row of `data.callback_group_subscription`. -/
structure CallbackGroupSubscriptionRow where
  subscription_handle : Nat
  callback_group_addr : Nat
deriving DecidableEq, Repr

/-- The raw trace tables, each possibly absent. -/
structure Ros2DataModel where
  timers : Option (List TimerRow)
  timer_node_links : Option (List TimerNodeLinkRow)
  callback_objects : Option (List CallbackObjectRow)
  callback_symbols : Option (List CallbackSymbolRow)
  callback_group_timer : Option (List CallbackGroupTimerRow)
  subscriptions : Option (List SubscriptionRow)
  subscription_objects : Option (List SubscriptionObjectRow)
  callback_group_subscription : Option (List CallbackGroupSubscriptionRow)
deriving DecidableEq, Repr

/-- A row of the formatted timer-callback table. -/
structure TimerCbRow where
  callback_id : String
  callback_object : Nat
  node_handle : Nat
  timer_handle : Nat
  callback_group_addr : Nat
  period_ns : Int
  symbol : String
deriving DecidableEq, Repr

/-- A row of the formatted subscription-callback table
(`callback_object_intra` may be absent, i.e. NaN). -/
structure SubCbRow where
  callback_id : String
  callback_object : Nat
  callback_object_intra : Option Nat
  node_handle : Nat
  subscription_handle : Nat
  callback_group_addr : Nat
  topic_name : String
  symbol : String
  depth : Int
deriving DecidableEq, Repr

/-- Insert into a sorted list of keys. -/
def insertSorted (a : Nat) : List Nat → List Nat
  | [] => [a]
  | x :: xs => if a ≤ x then a :: x :: xs else x :: insertSorted a xs

/-- Ascending key order, as pandas `groupby` iterates groups. -/
def sortNat (l : List Nat) : List Nat :=
  l.foldr insertSorted []

/-- A row of `_format_subscription_callback_object`: optional columns model
records that were left without a `callback_object` (more than two callbacks
on one handle) or without an intra object. -/
structure SubCbObjRow where
  subscription_handle : Nat
  callback_object : Option Nat
  callback_object_intra : Option Nat
deriving DecidableEq, Repr

/-- `DataFrameFormatted._format_subscription_callback_object`: joins
`subscription_objects` with `callback_objects` on the subscription pointer,
then per `subscription_handle` group (ascending): one row keeps its
callback object; two rows split into `callback_object` (second) and
`callback_object_intra` (first); more than two rows are logged and skipped
(a record with only the handle). -/
def format_subscription_callback_object (sub_objects : List SubscriptionObjectRow)
    (callback_objects : List CallbackObjectRow) : List SubCbObjRow :=
  let sub_df : List (Nat × Nat) := sub_objects.flatMap fun s =>
    (callback_objects.filter fun c => c.reference == s.subscription).map fun c =>
      (s.subscription_handle, c.callback_object)
  let keys := sortNat (sub_df.map Prod.fst).dedup
  keys.map fun k =>
    let group := sub_df.filter fun p => p.1 == k
    match group with
    | [g] => { subscription_handle := k, callback_object := some g.2,
               callback_object_intra := none }
    | [g0, g1] => { subscription_handle := k, callback_object := some g1.2,
                    callback_object_intra := some g0.2 }
    | _ => { subscription_handle := k, callback_object := none,
             callback_object_intra := none }

/-- The joins of `_build_timer_callbacks_df` (success path): timers ⨝
node links ⨝ callback objects (on the timer handle) ⨝ symbols (on the
callback object) ⨝ timer callback groups, with the id column added and
`period` renamed to `period_ns`; pandas successive inner merges produce
exactly this left-major nesting. -/
def timerCallbackJoins (timers : List TimerRow) (links : List TimerNodeLinkRow)
    (callback_objects : List CallbackObjectRow) (symbols : List CallbackSymbolRow)
    (cbg : List CallbackGroupTimerRow) : List TimerCbRow :=
  timers.flatMap fun t =>
    (links.filter fun ln => ln.timer_handle == t.timer_handle).flatMap fun ln =>
      (callback_objects.filter fun co => co.reference == t.timer_handle).flatMap fun co =>
        (symbols.filter fun sy => sy.callback_object == co.callback_object).flatMap
          fun sy =>
          (cbg.filter fun cg => cg.timer_handle == t.timer_handle).map fun cg =>
            { callback_id := "timer_callback_" ++ toString co.callback_object,
              callback_object := co.callback_object, node_handle := ln.node_handle,
              timer_handle := t.timer_handle,
              callback_group_addr := cg.callback_group_addr,
              period_ns := t.period, symbol := sy.symbol }

/-- `DataFrameFormatted._build_timer_callbacks_df`: the joins above inside
`try`; a missing table (`KeyError`) degrades to the empty table. -/
def build_timer_callbacks_df (data : Ros2DataModel) : List TimerCbRow :=
  match (do
    let timers ← data.timers
    let links ← data.timer_node_links
    let callback_objects ← data.callback_objects
    let symbols ← data.callback_symbols
    let cbg ← data.callback_group_timer
    some (timerCallbackJoins timers links callback_objects symbols cbg)) with
  | some rows => rows
  | none => []

/-- The joins of `_build_sub_callbacks_df` (success path): subscriptions ⨝
formatted callback objects (on the subscription handle; a NaN
`callback_object` never matches the symbols join) ⨝ symbols ⨝ subscription
callback groups, with the id column added. -/
def subCallbackJoins (subs : List SubscriptionRow) (cod : List SubCbObjRow)
    (symbols : List CallbackSymbolRow) (cbg : List CallbackGroupSubscriptionRow) :
    List SubCbRow :=
  subs.flatMap fun s =>
    (cod.filter fun co => co.subscription_handle == s.subscription_handle).flatMap
      fun co =>
      match co.callback_object with
      | none => []
      | some obj =>
        (symbols.filter fun sy => sy.callback_object == obj).flatMap fun sy =>
          (cbg.filter fun cg =>
            cg.subscription_handle == s.subscription_handle).map fun cg =>
            { callback_id := "subscription_callback_" ++ toString obj,
              callback_object := obj,
              callback_object_intra := co.callback_object_intra,
              node_handle := s.node_handle,
              subscription_handle := s.subscription_handle,
              callback_group_addr := cg.callback_group_addr,
              topic_name := s.topic_name, symbol := sy.symbol, depth := s.depth }

/-- `DataFrameFormatted._build_sub_callbacks_df`: the joins above inside
`try`; a missing table (`KeyError`) degrades to the empty table. -/
def build_sub_callbacks_df (data : Ros2DataModel) : List SubCbRow :=
  match (do
    let subs ← data.subscriptions
    let sub_objects ← data.subscription_objects
    let callback_objects ← data.callback_objects
    let symbols ← data.callback_symbols
    let cbg ← data.callback_group_subscription
    some (subCallbackJoins subs
      (format_subscription_callback_object sub_objects callback_objects) symbols cbg))
  with
  | some rows => rows
  | none => []

/-- A row of the formatted node table. -/
structure NodeRow where
  node_id : String
  node_handle : Nat
  node_name : String
deriving DecidableEq, Repr

/-- The projection `df[[callback_group_addr, callback_id, node_handle]]`
taken from the timer and subscription tables before concatenation. -/
structure CbgConcatRow where
  callback_group_addr : Nat
  callback_id : String
  node_handle : Nat
deriving DecidableEq, Repr

/-- The row shape after `_get_callback_groups` merges the concatenated
callback table with the node and callback-group tables. -/
structure CbgMergedRow where
  callback_group_addr : Nat
  callback_id : String
  node_handle : Nat
  node_id : String
  node_name : String
  callback_group_id : String
  group_type_name : String
  executor_addr : Nat
deriving DecidableEq, Repr

/-- `LttngInfo._is_user_made_callback`: a callback is user-made unless it is
a subscription callback on `/clock` or `/parameter_events`; `_id_to_topic`
is the dict from subscription callback ids to topic names (last write
wins). -/
def is_user_made_callback (id_to_topic : List (String × String))
    (callback_id : String) : Bool :=
  match (id_to_topic.filter fun p => p.1 == callback_id).getLast? with
  | none => true
  | some p => !(["/clock", "/parameter_events"].contains p.2)

/-- `LttngInfo._get_callback_groups(node_id)`: concatenates the selected
columns of the timer and subscription callback tables, merges with the node
and callback-group tables, then per `callback_group_addr` group (ascending)
takes the first row, skips groups of other nodes, and filters the group's
callback ids down to user-made callbacks. -/
def get_callback_groups (timer_df : List TimerCbRow) (sub_df : List SubCbRow)
    (nodes_df : List NodeRow) (cbg_df : List CbgRow)
    (id_to_topic : List (String × String)) (node_id : String) :
    List CallbackGroupValueLttng :=
  let concat_rows : List CbgConcatRow :=
    timer_df.map (fun r =>
      { callback_group_addr := r.callback_group_addr,
        callback_id := r.callback_id, node_handle := r.node_handle })
    ++ sub_df.map (fun r =>
      { callback_group_addr := r.callback_group_addr,
        callback_id := r.callback_id, node_handle := r.node_handle })
  let merged : List CbgMergedRow := concat_rows.flatMap fun c =>
    (nodes_df.filter fun n => n.node_handle == c.node_handle).flatMap fun n =>
      (cbg_df.filter fun g =>
        g.callback_group_addr == c.callback_group_addr).map fun g =>
        { callback_group_addr := c.callback_group_addr,
          callback_id := c.callback_id, node_handle := c.node_handle,
          node_id := n.node_id, node_name := n.node_name,
          callback_group_id := g.callback_group_id,
          group_type_name := g.group_type_name, executor_addr := g.executor_addr }
  let keys := sortNat (merged.map CbgMergedRow.callback_group_addr).dedup
  keys.flatMap fun k =>
    match merged.filter fun m => m.callback_group_addr == k with
    | [] => []
    | m :: ms =>
      if m.node_id ≠ node_id then []
      else
        [{ callback_group_type_name := m.group_type_name, node_name := m.node_name,
           node_id := node_id,
           callback_ids := ((m :: ms).map CbgMergedRow.callback_id).filter
             (is_user_made_callback id_to_topic),
           callback_group_id := m.callback_group_id,
           callback_group_addr := k, executor_addr := m.executor_addr }]

/-! Concrete dataframe scenarios used by counterexamples and witnesses. -/

/-- Raw callback-group row binding address 1 to executor 10. -/
def cbgR1 : CbgRawRow :=
  { callback_group_addr := 1, group_type_name := "mutually_exclusive",
    executor_addr := 10 }

/-- Raw callback-group row binding address 1 to executor 20. -/
def cbgR2 : CbgRawRow :=
  { callback_group_addr := 1, group_type_name := "mutually_exclusive",
    executor_addr := 20 }

/-- A data model whose timer table is absent. -/
def dataW : Ros2DataModel :=
  { timers := none, timer_node_links := some [], callback_objects := some [],
    callback_symbols := some [], callback_group_timer := some [],
    subscriptions := some [], subscription_objects := some [],
    callback_group_subscription := some [] }

/-- A write callback record: identity 7, interval (1, 2). -/
def wRec9 : Record :=
  { cells := [("callback_object", 7), ("callback_start_timestamp", 1),
    ("callback_end_timestamp", 2)] }

/-- The composed output row for `wRec9` when there is no read at all. -/
def outRec9 : Record := { cells := [("callback_end_timestamp", 2)] }

/-! Concrete binder scenarios used by counterexamples and witnesses. -/

/-- Execution record of callback object 100: interval (4, 6). -/
def recW1 : Record :=
  { cells := [("callback_object", 100), ("callback_start_timestamp", 4),
    ("callback_end_timestamp", 6)] }

/-- Execution record of callback object 200: interval (4, 6). -/
def recW2 : Record :=
  { cells := [("callback_object", 200), ("callback_start_timestamp", 4),
    ("callback_end_timestamp", 6)] }

/-- Inter-process publish record of publisher handle 1 at time 5. -/
def pubRecW : Record :=
  { cells := [("publisher_handle", 1), ("rclcpp_publish_timestamp", 5)] }

/-- Source where both callbacks 100 and 200 run during the publish at 5. -/
def srcW : RecordsSource :=
  { callback_records := [recW1, recW2], inter_proc_comm_records := [pubRecW],
    intra_proc_comm_records := [] }

/-- Publisher of topic `/t` with handle 1. -/
def pubW : PublisherValueLttng :=
  { node_name := "n", node_id := "nid", topic_name := "/t", callback_ids := none,
    publisher_handle := 1 }

/-- Timer callback with callback object 100. -/
def cb1W : TimerCallbackValueLttng :=
  { callback_id := "timer_callback_100", node_id := "nid", node_name := "n",
    symbol := "s", period_ns := 100, publish_topic_names := none,
    callback_object := 100 }

/-- Timer callback with callback object 200. -/
def cb2W : TimerCallbackValueLttng :=
  { callback_id := "timer_callback_200", node_id := "nid", node_name := "n",
    symbol := "s", period_ns := 100, publish_topic_names := none,
    callback_object := 200 }

/-- Timer callback with callback object 100 and an already-bound topic. -/
def cb1P : TimerCallbackValueLttng :=
  { cb1W with publish_topic_names := some ["/x"] }

/-- Timer callback with callback object 200 and an already-bound topic. -/
def cb2P : TimerCallbackValueLttng :=
  { cb2W with publish_topic_names := some ["/y"] }

/-- Subscription callback with callback object 100 and an already-bound
topic. -/
def sub1W : SubscriptionCallbackValueLttng :=
  { callback_id := "subscription_callback_100", node_id := "nid",
    node_name := "n", symbol := "s", subscribe_topic_name := "/in",
    publish_topic_names := some ["/x"], callback_object := 100,
    callback_object_intra := none }

/-- Subscription callback with callback object 200 and an already-bound
topic. -/
def sub2W : SubscriptionCallbackValueLttng :=
  { callback_id := "subscription_callback_200", node_id := "nid",
    node_name := "n", symbol := "s", subscribe_topic_name := "/in",
    publish_topic_names := some ["/y"], callback_object := 200,
    callback_object_intra := none }

/-- Execution record of callback object 100: interval (10, 11). -/
def recU1 : Record :=
  { cells := [("callback_object", 100), ("callback_start_timestamp", 10),
    ("callback_end_timestamp", 11)] }

/-- Execution record of callback object 100: interval (1, 5). -/
def recU2 : Record :=
  { cells := [("callback_object", 100), ("callback_start_timestamp", 1),
    ("callback_end_timestamp", 5)] }

/-- Inter-process publish record of publisher handle 1 at time 3. -/
def pubRecU : Record :=
  { cells := [("publisher_handle", 1), ("rclcpp_publish_timestamp", 3)] }

/-- Source whose callback records are NOT in chronological order: the
interval (10, 11) precedes the interval (1, 5) that contains the publish
time 3. -/
def srcU : RecordsSource :=
  { callback_records := [recU1, recU2], inter_proc_comm_records := [pubRecU],
    intra_proc_comm_records := [] }

/-- The same records in chronological order. -/
def srcS : RecordsSource :=
  { callback_records := [recU2, recU1], inter_proc_comm_records := [pubRecU],
    intra_proc_comm_records := [] }

/-- Timer callback with callback object 100 (consistency scenarios). -/
def cbU : TimerCallbackValueLttng :=
  { callback_id := "timer_callback_100", node_id := "nid", node_name := "n",
    symbol := "s", period_ns := 100, publish_topic_names := none,
    callback_object := 100 }

/-- A mutually exclusive callback group. -/
def cbgW : CallbackGroupValueLttng :=
  { callback_group_type_name := "mutually_exclusive", node_name := "n",
    node_id := "nid", callback_ids := [], callback_group_id := "callback_group_3",
    callback_group_addr := 3, executor_addr := 7 }

/-! ## Supporting lemmas -/

/-- Invariant of the branch loop: assuming the recursive continuation only
ever adds endpoint-correct paths, the loop only ever adds endpoint-correct
paths. -/
theorem search_loop_good
    (next : GraphNode → List GraphBranch → List GraphBranch →
      List (List GraphBranch) → Option (List (List GraphBranch)))
    (s dst node : GraphNode)
    (hnext : ∀ node' path' branches' paths' res',
      (path' = [] → node' = s) →
      (∀ b1, path'.head? = some b1 → b1.src_node = s) →
      (∀ bn, path'.getLast? = some bn → bn.dst_node = node') →
      (∀ p ∈ paths', GoodPath s dst p) →
      next node' path' branches' paths' = some res' →
      ∀ p ∈ res', GoodPath s dst p) :
    ∀ (l path branches : List GraphBranch) (paths res : List (List GraphBranch)),
      (∀ b ∈ l, b.src_node = node) →
      (path = [] → node = s) →
      (∀ b1, path.head? = some b1 → b1.src_node = s) →
      (∀ bn, path.getLast? = some bn → bn.dst_node = node) →
      (∀ p ∈ paths, GoodPath s dst p) →
      search_loop next path branches l paths = some res →
      ∀ p ∈ res, GoodPath s dst p := by
  intro l
  induction l with
  | nil =>
    intro path branches paths res _ _ _ _ hpaths hrun
    simp only [search_loop, Option.some.injEq] at hrun
    exact hrun ▸ hpaths
  | cons b rest ih =>
    intro path branches paths res hl hemp hhead hlast hpaths hrun
    simp only [search_loop] at hrun
    by_cases hb : b.arrived
    · simp only [hb, if_true] at hrun
      exact ih path branches paths res (fun x hx => hl x (List.mem_cons_of_mem _ hx))
        hemp hhead hlast hpaths hrun
    · simp only [hb, if_false, Bool.false_eq_true] at hrun
      cases hcall : next b.dst_node (path ++ [b]) (markFirstArrived b branches) paths with
      | none => rw [hcall] at hrun; cases hrun
      | some paths2 =>
        rw [hcall] at hrun
        have hgood2 : ∀ p ∈ paths2, GoodPath s dst p := by
          refine hnext b.dst_node (path ++ [b]) (markFirstArrived b branches) paths paths2
            ?_ ?_ ?_ hpaths hcall
          · intro hcontra; simp at hcontra
          · intro b1 hb1
            cases path with
            | nil =>
              simp only [List.nil_append, List.head?_cons, Option.some.injEq] at hb1
              rw [← hb1]
              exact (hl b (List.mem_cons_self b rest)).trans (hemp rfl)
            | cons x xs =>
              simp only [List.cons_append, List.head?_cons, Option.some.injEq] at hb1
              exact hhead b1 (by simp [← hb1])
          · intro bn hbn
            rw [List.getLast?_concat] at hbn
            cases hbn; rfl
        exact ih path branches paths2 res (fun x hx => hl x (List.mem_cons_of_mem _ hx))
          hemp hhead hlast hgood2 hrun

/-- Invariant of `search_local`: every path it records is non-empty, starts
at the original source and ends at the destination. -/
theorem search_local_good (s dst : GraphNode) :
    ∀ (fuel : Nat) (node : GraphNode) (path branches : List GraphBranch)
      (paths res : List (List GraphBranch)),
      (path = [] → node = s) →
      (∀ b1, path.head? = some b1 → b1.src_node = s) →
      (∀ bn, path.getLast? = some bn → bn.dst_node = node) →
      (∀ p ∈ paths, GoodPath s dst p) →
      search_local dst fuel node path branches paths = some res →
      ∀ p ∈ res, GoodPath s dst p := by
  intro fuel
  induction fuel with
  | zero => intro node path branches paths res _ _ _ _ hrun; cases hrun
  | succ fuel ih =>
    intro node path branches paths res hemp hhead hlast hpaths hrun
    simp only [search_local] at hrun
    have hpaths1 : ∀ p ∈ (if node = dst ∧ 0 < path.length then paths ++ [path] else paths),
        GoodPath s dst p := by
      split
      · rename_i hcond
        intro p hp
        rcases List.mem_append.mp hp with hmem | hmem
        · exact hpaths p hmem
        · have hpp : p = path := by simpa using hmem
          subst hpp
          refine ⟨hcond.2, ?_, ?_⟩
          · cases p with
            | nil => simp at hcond
            | cons x xs => simp only [List.head?_cons, Option.map_some]
                           exact congrArg some (hhead x rfl)
          · cases hgl : p.getLast? with
            | none =>
              rw [List.getLast?_eq_none_iff] at hgl
              subst hgl; simp at hcond
            | some bn =>
              exact congrArg some ((hlast bn hgl).trans hcond.1)
      · exact hpaths
    refine search_loop_good (search_local dst fuel) s dst node ?_
      (branches.filter fun x => x.src_node == node) path branches _ res
      ?_ hemp hhead hlast hpaths1 hrun
    · intro node' path' branches' paths' res' h1 h2 h3 h4 hcall
      exact ih node' path' branches' paths' res' h1 h2 h3 h4 hcall
    · intro b hb
      have := (List.mem_filter.mp hb).2
      exact of_decide_eq_true this

/-- `GraphBranch.beq` holds exactly when the two branches have the same
(source, destination) pair. -/
theorem beq_iff_edgePair (a b : GraphBranch) :
    GraphBranch.beq a b = true ↔ edgePair a = edgePair b := by
  simp [GraphBranch.beq, edgePair, Prod.ext_iff]

/-- Marking a branch arrived changes no (source, destination) pair. -/
theorem markFirstArrived_map_edgePair (b : GraphBranch) :
    ∀ l : List GraphBranch, (markFirstArrived b l).map edgePair = l.map edgePair := by
  intro l
  induction l with
  | nil => rfl
  | cons x xs ih =>
    simp only [markFirstArrived]
    split
    · simp [edgePair]
    · simp [ih]

/-- Every element of the marked list comes from an element of the original
list with the same pair, and marking never clears an `arrived` flag. -/
theorem mem_markFirstArrived (b y : GraphBranch) :
    ∀ l : List GraphBranch, y ∈ markFirstArrived b l →
      ∃ z ∈ l, edgePair z = edgePair y ∧ (z.arrived = true → y.arrived = true) := by
  intro l
  induction l with
  | nil => intro h; cases h
  | cons x xs ih =>
    intro hy
    simp only [markFirstArrived] at hy
    by_cases hx : GraphBranch.beq x b = true
    · rw [if_pos hx] at hy
      rcases List.mem_cons.mp hy with hh | ht
      · exact ⟨x, List.mem_cons_self x xs, by simp [hh, edgePair], by simp [hh]⟩
      · exact ⟨y, List.mem_cons_of_mem x ht, rfl, fun h => h⟩
    · rw [if_neg hx] at hy
      rcases List.mem_cons.mp hy with hh | ht
      · exact ⟨x, List.mem_cons_self x xs, by simp [hh], by simp [hh]⟩
      · obtain ⟨z, hz, hp, ha⟩ := ih ht
        exact ⟨z, List.mem_cons_of_mem x hz, hp, ha⟩

/-- If the pairs in `l` are distinct and `l` holds a branch with `b`'s pair,
then after `markFirstArrived b l` every branch carrying `b`'s pair is
arrived. -/
theorem markFirstArrived_marks (b : GraphBranch) :
    ∀ l : List GraphBranch, (l.map edgePair).Nodup →
      (∃ z ∈ l, edgePair z = edgePair b) →
      ∀ y ∈ markFirstArrived b l, edgePair y = edgePair b → y.arrived = true := by
  intro l
  induction l with
  | nil => intro _ h; exact absurd h (by simp)
  | cons x xs ih =>
    intro hnd hex y hy hpair
    simp only [markFirstArrived] at hy
    by_cases hx : GraphBranch.beq x b = true
    · rw [if_pos hx] at hy
      rcases List.mem_cons.mp hy with hh | ht
      · simp [hh]
      · exfalso
        have hxb : edgePair x = edgePair b := (beq_iff_edgePair x b).mp hx
        have hyx : edgePair y = edgePair x := hpair.trans hxb.symm
        have : edgePair y ∈ xs.map edgePair := List.mem_map_of_mem edgePair ht
        rw [hyx] at this
        exact (List.nodup_cons.mp (by simpa using hnd)).1 this
    · rw [if_neg hx] at hy
      have hxb : edgePair x ≠ edgePair b := fun h => hx ((beq_iff_edgePair x b).mpr h)
      rcases List.mem_cons.mp hy with hh | ht
      · exact absurd (hh ▸ hpair) hxb
      · refine ih (List.nodup_cons.mp (by simpa using hnd)).2 ?_ y ht hpair
        rcases hex with ⟨z, hz, hzp⟩
        rcases List.mem_cons.mp hz with hzh | hzt
        · exact absurd (hzh ▸ hzp) hxb
        · exact ⟨z, hzt, hzp⟩

/-- Invariant of the branch loop for edge non-reuse: if the input branch
pairs are distinct, every pair already on the path is marked arrived in the
branch set, and the path has no repeated pair, then every recorded path has
no repeated pair. -/
theorem search_loop_nodup
    (next : GraphNode → List GraphBranch → List GraphBranch →
      List (List GraphBranch) → Option (List (List GraphBranch)))
    (hnext : ∀ node' path' branches' paths' res',
      (branches'.map edgePair).Nodup →
      (∀ x ∈ path', ∀ y ∈ branches', edgePair y = edgePair x → y.arrived = true) →
      (path'.map edgePair).Nodup →
      (∀ p ∈ paths', (p.map edgePair).Nodup) →
      next node' path' branches' paths' = some res' →
      ∀ p ∈ res', (p.map edgePair).Nodup) :
    ∀ (l path branches : List GraphBranch) (paths res : List (List GraphBranch)),
      (∀ b ∈ l, b ∈ branches) →
      (branches.map edgePair).Nodup →
      (∀ x ∈ path, ∀ y ∈ branches, edgePair y = edgePair x → y.arrived = true) →
      (path.map edgePair).Nodup →
      (∀ p ∈ paths, (p.map edgePair).Nodup) →
      search_loop next path branches l paths = some res →
      ∀ p ∈ res, (p.map edgePair).Nodup := by
  intro l
  induction l with
  | nil =>
    intro path branches paths res _ _ _ _ hpaths hrun
    simp only [search_loop, Option.some.injEq] at hrun
    exact hrun ▸ hpaths
  | cons b rest ih =>
    intro path branches paths res hl hbr hmark hpath hpaths hrun
    simp only [search_loop] at hrun
    by_cases hb : b.arrived
    · simp only [hb, if_true] at hrun
      exact ih path branches paths res (fun x hx => hl x (List.mem_cons_of_mem _ hx))
        hbr hmark hpath hpaths hrun
    · simp only [hb, if_false, Bool.false_eq_true] at hrun
      have hbmem : b ∈ branches := hl b (List.mem_cons_self b rest)
      have hbnew : ∀ x ∈ path, edgePair x ≠ edgePair b := by
        intro x hx hcontra
        exact hb (hmark x hx b hbmem hcontra.symm)
      cases hcall : next b.dst_node (path ++ [b]) (markFirstArrived b branches) paths with
      | none => rw [hcall] at hrun; cases hrun
      | some paths2 =>
        rw [hcall] at hrun
        have hgood2 : ∀ p ∈ paths2, (p.map edgePair).Nodup := by
          refine hnext b.dst_node (path ++ [b]) (markFirstArrived b branches) paths paths2
            ?_ ?_ ?_ hpaths hcall
          · rw [markFirstArrived_map_edgePair]; exact hbr
          · intro x hx y hy hpair
            rcases List.mem_append.mp hx with hxp | hxb
            · obtain ⟨z, hz, hzp, hza⟩ := mem_markFirstArrived b y branches hy
              exact hza (hmark x hxp z hz (hzp.trans hpair))
            · have hxb' : x = b := by simpa using hxb
              rw [hxb'] at hpair
              exact markFirstArrived_marks b branches hbr ⟨b, hbmem, rfl⟩ y hy hpair
          · rw [List.map_append]
            refine List.Nodup.append hpath (by simp) ?_
            intro q hq hq2
            have hqb : q = edgePair b := by simpa using hq2
            obtain ⟨x, hx, hxq⟩ := List.mem_map.mp hq
            exact hbnew x hx (hxq.trans hqb)
        exact ih path branches paths2 res (fun x hx => hl x (List.mem_cons_of_mem _ hx))
          hbr hmark hpath hgood2 hrun

/-- Invariant of `search_local` for edge non-reuse under distinct input edge
pairs. -/
theorem search_local_nodup (dst : GraphNode) :
    ∀ (fuel : Nat) (node : GraphNode) (path branches : List GraphBranch)
      (paths res : List (List GraphBranch)),
      (branches.map edgePair).Nodup →
      (∀ x ∈ path, ∀ y ∈ branches, edgePair y = edgePair x → y.arrived = true) →
      (path.map edgePair).Nodup →
      (∀ p ∈ paths, (p.map edgePair).Nodup) →
      search_local dst fuel node path branches paths = some res →
      ∀ p ∈ res, (p.map edgePair).Nodup := by
  intro fuel
  induction fuel with
  | zero => intro _ _ _ _ _ _ _ _ _ hrun; cases hrun
  | succ fuel ih =>
    intro node path branches paths res hbr hmark hpath hpaths hrun
    simp only [search_local] at hrun
    have hpaths1 : ∀ p ∈ (if node = dst ∧ 0 < path.length then paths ++ [path] else paths),
        (p.map edgePair).Nodup := by
      split
      · intro p hp
        rcases List.mem_append.mp hp with hmem | hmem
        · exact hpaths p hmem
        · have : p = path := by simpa using hmem
          exact this ▸ hpath
      · exact hpaths
    refine search_loop_nodup (search_local dst fuel) ?_
      (branches.filter fun x => x.src_node == node) path branches _ res
      (fun b hb => (List.mem_filter.mp hb).1) hbr hmark hpath hpaths1 hrun
    intro node' path' branches' paths' res' h1 h2 h3 h4 hcall
    exact ih node' path' branches' paths' res' h1 h2 h3 h4 hcall

/-- Successful `mapM` over `Option`: every output element is the image of
some input element. -/
theorem mapM_option_mem {α β : Type} (f : α → Option β) :
    ∀ (l : List α) (r : List β), l.mapM f = some r →
      ∀ b ∈ r, ∃ a ∈ l, f a = some b := by
  intro l
  induction l with
  | nil =>
    intro r hr b hb
    simp only [List.mapM_nil, Option.pure_def, Option.some.injEq] at hr
    subst hr; cases hb
  | cons x xs ih =>
    intro r hr b hb
    rw [List.mapM_cons] at hr
    cases hfx : f x with
    | none => rw [hfx] at hr; cases hr
    | some y =>
      rw [hfx] at hr
      cases hxs : xs.mapM f with
      | none => rw [hxs] at hr; cases hr
      | some ys =>
        rw [hxs] at hr
        have hr2 : y :: ys = r := by simpa using hr
        subst hr2
        rcases List.mem_cons.mp hb with hh | ht
        · exact ⟨x, List.mem_cons_self x xs, hh ▸ hfx⟩
        · obtain ⟨a, ha, hfa⟩ := ih ys hxs b ht
          exact ⟨a, List.mem_cons_of_mem x ha, hfa⟩

/-- Successful `mapM` over `Option` preserves length. -/
theorem mapM_option_length {α β : Type} (f : α → Option β) :
    ∀ (l : List α) (r : List β), l.mapM f = some r → r.length = l.length := by
  intro l
  induction l with
  | nil =>
    intro r hr
    simp only [List.mapM_nil, Option.pure_def, Option.some.injEq] at hr
    simp [← hr]
  | cons x xs ih =>
    intro r hr
    rw [List.mapM_cons] at hr
    cases hfx : f x with
    | none => rw [hfx] at hr; cases hr
    | some y =>
      rw [hfx] at hr
      cases hxs : xs.mapM f with
      | none => rw [hxs] at hr; cases hr
      | some ys =>
        rw [hxs] at hr
        have hr2 : y :: ys = r := by simpa using hr
        subst hr2
        simp [ih ys hxs]

/-- Successful `mapM` over `Option` maps the head to the head. -/
theorem mapM_option_head {α β : Type} (f : α → Option β) (x : α) (xs : List α)
    (r : List β) (hr : (x :: xs).mapM f = some r) :
    ∃ y, f x = some y ∧ r.head? = some y := by
  rw [List.mapM_cons] at hr
  cases hfx : f x with
  | none => rw [hfx] at hr; cases hr
  | some y =>
    rw [hfx] at hr
    cases hxs : xs.mapM f with
    | none => rw [hxs] at hr; cases hr
    | some ys =>
      rw [hxs] at hr
      have hr2 : y :: ys = r := by simpa using hr
      exact ⟨y, rfl, by simp [← hr2]⟩

/-- Successful `mapM` over `Option` maps the last element to the last
element. -/
theorem mapM_option_getLast {α β : Type} (f : α → Option β) :
    ∀ (l : List α) (r : List β) (a : α), l.mapM f = some r →
      l.getLast? = some a → ∃ b, f a = some b ∧ r.getLast? = some b := by
  intro l
  induction l with
  | nil => intro r a _ hl; cases hl
  | cons x xs ih =>
    intro r a hr hl
    rw [List.mapM_cons] at hr
    cases hfx : f x with
    | none => rw [hfx] at hr; cases hr
    | some y =>
      rw [hfx] at hr
      cases hxs : xs.mapM f with
      | none => rw [hxs] at hr; cases hr
      | some ys =>
        rw [hxs] at hr
        have hr2 : y :: ys = r := by simpa using hr
        subst hr2
        cases xs with
        | nil =>
          simp only [List.mapM_nil, Option.pure_def, Option.some.injEq] at hxs
          subst hxs
          simp only [List.getLast?_singleton, Option.some.injEq] at hl
          exact ⟨y, hl ▸ hfx, by simp⟩
        | cons x2 xs2 =>
          have hl' : (x2 :: xs2).getLast? = some a := by
            rw [List.getLast?_cons_cons] at hl; exact hl
          obtain ⟨b, hfb, hlast⟩ := ih ys a hxs hl'
          refine ⟨b, hfb, ?_⟩
          have hys : ys ≠ [] := by
            intro hcontra
            subst hcontra
            have := mapM_option_length f (x2 :: xs2) [] hxs
            simp at this
          cases ys with
          | nil => exact absurd rfl hys
          | cons y2 ys2 => rw [List.getLast?_cons_cons]; exact hlast

/-- A successful `lookupCallback` returns a callback carrying exactly the
looked-up unique name. -/
theorem lookupCallback_name (callbacks : List CallbackBase) (name : String)
    (c : CallbackBase) (h : lookupCallback callbacks name = some c) :
    c.callback_unique_name = name := by
  unfold lookupCallback at h
  have hmem := List.mem_of_mem_getLast? (by rw [h]; exact rfl :
    c ∈ (callbacks.filter fun x => x.callback_unique_name == name).getLast?)
  exact of_decide_eq_true (List.mem_filter.mp hmem).2

/-- Characterization of the timer update under distinct callback ids: the
(unique) entry carrying the target's id is replaced, everything else kept. -/
theorem update_timer_eq_map (cb : TimerCallbackValueLttng) (names : List String) :
    ∀ lst : List TimerCallbackValueLttng,
      (lst.map TimerCallbackValueLttng.callback_id).Nodup →
      update_timer_cb_publish_topics lst cb names =
        lst.map fun x => if x.callback_id = cb.callback_id then
          { cb with publish_topic_names := some names } else x := by
  intro lst
  induction lst with
  | nil => intro _; rfl
  | cons x xs ih =>
    intro hnd
    rw [List.map_cons] at hnd
    have hnc := List.nodup_cons.mp hnd
    simp only [update_timer_cb_publish_topics, List.map_cons]
    by_cases hx : x.callback_id = cb.callback_id
    · rw [if_pos (by simpa using hx), if_pos hx]
      have hxs : ∀ y ∈ xs, ¬(y.callback_id = cb.callback_id) := by
        intro y hy hcontra
        exact hnc.1 (by rw [hx, ← hcontra]; exact List.mem_map_of_mem _ hy)
      rw [List.map_congr_left (fun y hy => if_neg (hxs y hy))]
      simp
    · rw [if_neg (by simpa using hx), if_neg hx, ih hnc.2]

/-- The reset loop `for cb in callbacks: update(lst, cb, ())` computed over
a list with distinct ids: every entry whose id occurs in the processed list
is reset. -/
theorem foldl_update_timer (todo : List TimerCallbackValueLttng) :
    ∀ lst : List TimerCallbackValueLttng,
      (lst.map TimerCallbackValueLttng.callback_id).Nodup →
      (∀ cb ∈ todo, ∀ x ∈ lst, cb.callback_id = x.callback_id →
        resetTimerTopics cb = resetTimerTopics x) →
      todo.foldl (fun l cb => update_timer_cb_publish_topics l cb []) lst =
        lst.map fun x =>
          if todo.any (fun cb => cb.callback_id == x.callback_id) then
            resetTimerTopics x else x := by
  induction todo with
  | nil =>
    intro lst _ _
    simp
  | cons cb rest ih =>
    intro lst hnd hagree
    simp only [List.foldl_cons]
    have hstep : update_timer_cb_publish_topics lst cb [] =
        lst.map fun x => if x.callback_id = cb.callback_id then resetTimerTopics x else x := by
      rw [update_timer_eq_map cb [] lst hnd]
      refine List.map_congr_left ?_
      intro x hx
      by_cases hid : x.callback_id = cb.callback_id
      · rw [if_pos hid, if_pos hid]
        have := hagree cb (List.mem_cons_self cb rest) x hx hid.symm
        simpa [resetTimerTopics] using this
      · rw [if_neg hid, if_neg hid]
    rw [hstep]
    have hids : ((lst.map fun x => if x.callback_id = cb.callback_id then
        resetTimerTopics x else x).map TimerCallbackValueLttng.callback_id) =
        lst.map TimerCallbackValueLttng.callback_id := by
      rw [List.map_map]
      refine List.map_congr_left ?_
      intro x _
      by_cases hid : x.callback_id = cb.callback_id
      · simp [hid, resetTimerTopics]
      · simp [hid]
    have hagree2 : ∀ c ∈ rest, ∀ x ∈ (lst.map fun x =>
        if x.callback_id = cb.callback_id then resetTimerTopics x else x),
        c.callback_id = x.callback_id → resetTimerTopics c = resetTimerTopics x := by
      intro c hc x hx hcx
      obtain ⟨x0, hx0, hx0e⟩ := List.mem_map.mp hx
      have hagree0 := hagree c (List.mem_cons_of_mem cb hc) x0 hx0
      by_cases hid : x0.callback_id = cb.callback_id
      · rw [if_pos hid] at hx0e
        have hcid : c.callback_id = x0.callback_id := by
          rw [← hx0e] at hcx
          simpa [resetTimerTopics] using hcx
        have := hagree0 hcid
        rw [← hx0e]
        simpa [resetTimerTopics] using this
      · rw [if_neg hid] at hx0e
        exact hx0e ▸ hagree0 (hx0e ▸ hcx)
    rw [ih _ (by rw [hids]; exact hnd) hagree2, List.map_map]
    refine List.map_congr_left ?_
    intro x hx
    simp only [Function.comp]
    by_cases hid : x.callback_id = cb.callback_id
    · have hpcb : (cb.callback_id == x.callback_id) = true := by
        simp [hid]
      rw [if_pos hid, List.any_cons, hpcb, Bool.true_or]
      simp only [if_pos rfl]
      by_cases hrest : rest.any
          (fun c => c.callback_id == (resetTimerTopics x).callback_id) = true
      · rw [if_pos hrest]
        simp [resetTimerTopics]
      · rw [if_neg hrest]
        simp
    · have hpcb : (cb.callback_id == x.callback_id) = false := by
        simp only [beq_eq_false_iff_ne, ne_eq]
        exact fun h => hid h.symm
      rw [if_neg hid, List.any_cons, hpcb, Bool.false_or]

/-- The reset loop over the full callback list leaves exactly the reset
list. -/
theorem foldl_update_timer_reset (callbacks : List TimerCallbackValueLttng)
    (hnd : (callbacks.map TimerCallbackValueLttng.callback_id).Nodup) :
    callbacks.foldl (fun l cb => update_timer_cb_publish_topics l cb []) callbacks =
      callbacks.map resetTimerTopics := by
  rw [foldl_update_timer callbacks callbacks hnd (fun c hc x hx h =>
    congrArg resetTimerTopics (List.inj_on_of_nodup_map hnd hc hx h))]
  refine List.map_congr_left ?_
  intro x hx
  rw [if_pos (List.any_eq_true.mpr ⟨x, hx, by simp⟩)]


/-- Characterization of the subscription update under distinct callback ids:
the (unique) entry carrying the target's id is replaced, everything else
kept. -/
theorem update_sub_eq_map (cb : SubscriptionCallbackValueLttng) (names : List String) :
    ∀ lst : List SubscriptionCallbackValueLttng,
      (lst.map SubscriptionCallbackValueLttng.callback_id).Nodup →
      update_sub_cb_publish_topics lst cb names =
        lst.map fun x => if x.callback_id = cb.callback_id then
          { cb with publish_topic_names := some names } else x := by
  intro lst
  induction lst with
  | nil => intro _; rfl
  | cons x xs ih =>
    intro hnd
    rw [List.map_cons] at hnd
    have hnc := List.nodup_cons.mp hnd
    simp only [update_sub_cb_publish_topics, List.map_cons]
    by_cases hx : x.callback_id = cb.callback_id
    · rw [if_pos (by simpa using hx), if_pos hx]
      have hxs : ∀ y ∈ xs, ¬(y.callback_id = cb.callback_id) := by
        intro y hy hcontra
        exact hnc.1 (by rw [hx, ← hcontra]; exact List.mem_map_of_mem _ hy)
      rw [List.map_congr_left (fun y hy => if_neg (hxs y hy))]
      simp
    · rw [if_neg (by simpa using hx), if_neg hx, ih hnc.2]

/-- The subscription reset loop computed over a list with distinct ids:
every entry whose id occurs in the processed list is reset. -/
theorem foldl_update_sub (todo : List SubscriptionCallbackValueLttng) :
    ∀ lst : List SubscriptionCallbackValueLttng,
      (lst.map SubscriptionCallbackValueLttng.callback_id).Nodup →
      (∀ cb ∈ todo, ∀ x ∈ lst, cb.callback_id = x.callback_id →
        resetSubTopics cb = resetSubTopics x) →
      todo.foldl (fun l cb => update_sub_cb_publish_topics l cb []) lst =
        lst.map fun x =>
          if todo.any (fun cb => cb.callback_id == x.callback_id) then
            resetSubTopics x else x := by
  induction todo with
  | nil =>
    intro lst _ _
    simp
  | cons cb rest ih =>
    intro lst hnd hagree
    simp only [List.foldl_cons]
    have hstep : update_sub_cb_publish_topics lst cb [] =
        lst.map fun x => if x.callback_id = cb.callback_id then resetSubTopics x else x := by
      rw [update_sub_eq_map cb [] lst hnd]
      refine List.map_congr_left ?_
      intro x hx
      by_cases hid : x.callback_id = cb.callback_id
      · rw [if_pos hid, if_pos hid]
        have := hagree cb (List.mem_cons_self cb rest) x hx hid.symm
        simpa [resetSubTopics] using this
      · rw [if_neg hid, if_neg hid]
    rw [hstep]
    have hids : ((lst.map fun x => if x.callback_id = cb.callback_id then
        resetSubTopics x else x).map SubscriptionCallbackValueLttng.callback_id) =
        lst.map SubscriptionCallbackValueLttng.callback_id := by
      rw [List.map_map]
      refine List.map_congr_left ?_
      intro x _
      by_cases hid : x.callback_id = cb.callback_id
      · simp [hid, resetSubTopics]
      · simp [hid]
    have hagree2 : ∀ c ∈ rest, ∀ x ∈ (lst.map fun x =>
        if x.callback_id = cb.callback_id then resetSubTopics x else x),
        c.callback_id = x.callback_id → resetSubTopics c = resetSubTopics x := by
      intro c hc x hx hcx
      obtain ⟨x0, hx0, hx0e⟩ := List.mem_map.mp hx
      have hagree0 := hagree c (List.mem_cons_of_mem cb hc) x0 hx0
      by_cases hid : x0.callback_id = cb.callback_id
      · rw [if_pos hid] at hx0e
        have hcid : c.callback_id = x0.callback_id := by
          rw [← hx0e] at hcx
          simpa [resetSubTopics] using hcx
        have := hagree0 hcid
        rw [← hx0e]
        simpa [resetSubTopics] using this
      · rw [if_neg hid] at hx0e
        exact hx0e ▸ hagree0 (hx0e ▸ hcx)
    rw [ih _ (by rw [hids]; exact hnd) hagree2, List.map_map]
    refine List.map_congr_left ?_
    intro x hx
    simp only [Function.comp]
    by_cases hid : x.callback_id = cb.callback_id
    · have hpcb : (cb.callback_id == x.callback_id) = true := by
        simp [hid]
      rw [if_pos hid, List.any_cons, hpcb, Bool.true_or]
      simp only [if_pos rfl]
      by_cases hrest : rest.any
          (fun c => c.callback_id == (resetSubTopics x).callback_id) = true
      · rw [if_pos hrest]
        simp [resetSubTopics]
      · rw [if_neg hrest]
        simp
    · have hpcb : (cb.callback_id == x.callback_id) = false := by
        simp only [beq_eq_false_iff_ne, ne_eq]
        exact fun h => hid h.symm
      rw [if_neg hid, List.any_cons, hpcb, Bool.false_or]

/-- The subscription reset loop over the full callback list leaves exactly
the reset list. -/
theorem foldl_update_sub_reset (callbacks : List SubscriptionCallbackValueLttng)
    (hnd : (callbacks.map SubscriptionCallbackValueLttng.callback_id).Nodup) :
    callbacks.foldl (fun l cb => update_sub_cb_publish_topics l cb []) callbacks =
      callbacks.map resetSubTopics := by
  rw [foldl_update_sub callbacks callbacks hnd (fun c hc x hx h =>
    congrArg resetSubTopics (List.inj_on_of_nodup_map hnd hc hx h))]
  refine List.map_congr_left ?_
  intro x hx
  rw [if_pos (List.any_eq_true.mpr ⟨x, hx, by simp⟩)]

/-- If the records are in nondecreasing start-timestamp order and some
record's interval strictly contains the publish time, the scan reaches a
containing interval before any interval lying after the publish time, and
answers `True`. -/
theorem is_consistent_loop_contains (pt : Int) :
    ∀ l : List Record,
      List.Pairwise (fun a b => a.get "callback_start_timestamp" ≤
        b.get "callback_start_timestamp") l →
      (∃ r ∈ l, r.hasColumn "callback_start_timestamp" = true ∧
        r.hasColumn "callback_end_timestamp" = true ∧
        r.get "callback_start_timestamp" < pt ∧ pt < r.get "callback_end_timestamp") →
      is_consistent_loop pt l = some true := by
  intro l
  induction l with
  | nil => intro _ hex; exact absurd hex (by simp)
  | cons d rest ih =>
    intro hsort hex
    have hsort' := List.pairwise_cons.mp hsort
    simp only [is_consistent_loop]
    by_cases hs : d.hasColumn "callback_start_timestamp" = false
    · rw [if_pos hs]
      refine ih hsort'.2 ?_
      rcases hex with ⟨r, hr, hrs, hre, hlt1, hlt2⟩
      rcases List.mem_cons.mp hr with hrd | hrr
      · rw [← hrd] at hs; rw [hrs] at hs; cases hs
      · exact ⟨r, hrr, hrs, hre, hlt1, hlt2⟩
    · rw [if_neg hs]
      by_cases he : d.hasColumn "callback_end_timestamp" = false
      · rw [if_pos he]
        refine ih hsort'.2 ?_
        rcases hex with ⟨r, hr, hrs, hre, hlt1, hlt2⟩
        rcases List.mem_cons.mp hr with hrd | hrr
        · rw [← hrd] at he; rw [hre] at he; cases he
        · exact ⟨r, hrr, hrs, hre, hlt1, hlt2⟩
      · rw [if_neg he]
        by_cases hc : d.get "callback_start_timestamp" < pt ∧
            pt < d.get "callback_end_timestamp"
        · rw [if_pos hc]
        · rw [if_neg hc]
          by_cases hf : d.get "callback_start_timestamp" > pt ∧
              d.get "callback_end_timestamp" > pt
          · exfalso
            rcases hex with ⟨r, hr, _, _, hlt1, hlt2⟩
            rcases List.mem_cons.mp hr with hrd | hrr
            · rw [← hrd] at hc; exact hc ⟨hlt1, hlt2⟩
            · have := hsort'.1 r hrr
              omega
          · rw [if_neg hf]
            refine ih hsort'.2 ?_
            rcases hex with ⟨r, hr, hrs, hre, hlt1, hlt2⟩
            rcases List.mem_cons.mp hr with hrd | hrr
            · rw [← hrd] at hc; exact absurd ⟨hlt1, hlt2⟩ hc
            · exact ⟨r, hrr, hrs, hre, hlt1, hlt2⟩

/-- If every record (with both timestamp columns) has ended strictly before
the publish time, the inter scan is inconclusive. -/
theorem is_consistent_loop_after (pt : Int) :
    ∀ l : List Record,
      (∀ r ∈ l, r.hasColumn "callback_start_timestamp" = true →
        r.hasColumn "callback_end_timestamp" = true →
        r.get "callback_end_timestamp" < pt) →
      is_consistent_loop pt l = none := by
  intro l
  induction l with
  | nil => intro _; rfl
  | cons d rest ih =>
    intro hall
    have hrest : ∀ r ∈ rest, r.hasColumn "callback_start_timestamp" = true →
        r.hasColumn "callback_end_timestamp" = true →
        r.get "callback_end_timestamp" < pt :=
      fun r hr => hall r (List.mem_cons_of_mem d hr)
    simp only [is_consistent_loop]
    by_cases hs : d.hasColumn "callback_start_timestamp" = false
    · rw [if_pos hs]; exact ih hrest
    · rw [if_neg hs]
      by_cases he : d.hasColumn "callback_end_timestamp" = false
      · rw [if_pos he]; exact ih hrest
      · rw [if_neg he]
        have hend := hall d (List.mem_cons_self d rest)
          (by revert hs; cases d.hasColumn "callback_start_timestamp" <;> simp)
          (by revert he; cases d.hasColumn "callback_end_timestamp" <;> simp)
        rw [if_neg (by omega : ¬(d.get "callback_start_timestamp" < pt ∧
          pt < d.get "callback_end_timestamp"))]
        rw [if_neg (by omega : ¬(d.get "callback_start_timestamp" > pt ∧
          d.get "callback_end_timestamp" > pt))]
        exact ih hrest

/-- If every record (with both timestamp columns) has ended strictly before
the publish time, the intra scan answers `False`. -/
theorem is_consistent_intra_loop_after (pt : Int) :
    ∀ l : List Record,
      (∀ r ∈ l, r.hasColumn "callback_start_timestamp" = true →
        r.hasColumn "callback_end_timestamp" = true →
        r.get "callback_end_timestamp" < pt) →
      is_consistent_intra_loop pt l = false := by
  intro l
  induction l with
  | nil => intro _; rfl
  | cons d rest ih =>
    intro hall
    have hrest : ∀ r ∈ rest, r.hasColumn "callback_start_timestamp" = true →
        r.hasColumn "callback_end_timestamp" = true →
        r.get "callback_end_timestamp" < pt :=
      fun r hr => hall r (List.mem_cons_of_mem d hr)
    simp only [is_consistent_intra_loop]
    by_cases hs : d.hasColumn "callback_start_timestamp" = false
    · rw [if_pos hs]; exact ih hrest
    · rw [if_neg hs]
      by_cases he : d.hasColumn "callback_end_timestamp" = false
      · rw [if_pos he]; exact ih hrest
      · rw [if_neg he]
        have hend := hall d (List.mem_cons_self d rest)
          (by revert hs; cases d.hasColumn "callback_start_timestamp" <;> simp)
          (by revert he; cases d.hasColumn "callback_end_timestamp" <;> simp)
        rw [if_neg (by omega : ¬(d.get "callback_start_timestamp" < pt ∧
          pt < d.get "callback_end_timestamp"))]
        rw [if_neg (by omega : ¬(d.get "callback_start_timestamp" > pt ∧
          d.get "callback_end_timestamp" > pt))]
        exact ih hrest

/-- Finding a kept column commutes with the cell filter of `drop_columns`. -/
theorem findCell_filter (cols : List String) (c : String)
    (hc : cols.contains c = false) :
    ∀ cells : List (String × Int),
      List.find? (fun p => p.1 == c) (cells.filter fun p => !(cols.contains p.1)) =
        List.find? (fun p => p.1 == c) cells := by
  intro cells
  induction cells with
  | nil => rfl
  | cons p ps ih =>
    by_cases hp : (p.1 == c) = true
    · have hpc : p.1 = c := by simpa using hp
      have hkeep : (!(cols.contains p.1)) = true := by rw [hpc, hc]; rfl
      simp only [List.filter_cons, hkeep, if_true, List.find?_cons, hp]
    · have hp2 : (p.1 == c) = false := by
        cases h : (p.1 == c) with
        | true => exact absurd h hp
        | false => rfl
      by_cases hkeep : (!(cols.contains p.1)) = true
      · simp only [List.filter_cons, hkeep, if_true, List.find?_cons, hp2]
        exact ih
      · have hkeep2 : (!(cols.contains p.1)) = false := by
          cases h : (!(cols.contains p.1)) with
          | true => exact absurd h hkeep
          | false => rfl
        simp only [List.filter_cons, hkeep2, Bool.false_eq_true, if_false,
          List.find?_cons, hp2]
        exact ih

/-- Dropping other columns does not change a column's cell. -/
theorem Record.get?_drop_columns (r : Record) (cols : List String) (c : String)
    (hc : cols.contains c = false) : (r.drop_columns cols).get? c = r.get? c := by
  simp only [Record.drop_columns, Record.get?]
  rw [findCell_filter cols c hc]

/-- A dropped column is absent from the result. -/
theorem Record.hasColumn_drop_columns_of_mem (r : Record) (cols : List String)
    (c : String) (hc : cols.contains c = true) :
    (r.drop_columns cols).hasColumn c = false := by
  simp only [Record.drop_columns, Record.hasColumn]
  have hnone : List.find? (fun p => p.1 == c)
      (r.cells.filter fun p => !(cols.contains p.1)) = none := by
    rw [List.find?_eq_none]
    intro p hp hpc
    have hp2 := (List.mem_filter.mp hp).2
    have hpc2 : p.1 = c := by simpa using hpc
    rw [hpc2, hc] at hp2
    cases hp2
  rw [hnone]
  rfl

/-- `hasColumn` is definedness of `get?`. -/
theorem Record.hasColumn_eq_isSome (r : Record) (c : String) :
    r.hasColumn c = (r.get? c).isSome := by
  simp only [Record.hasColumn, Record.get?]
  cases r.cells.find? fun p => p.1 == c <;> rfl

/-- Finding an unrelated column commutes with the cell map of a single
rename. -/
theorem findCell_rename (a b c : String) (hca : c ≠ a) (hcb : c ≠ b) :
    ∀ cells : List (String × Int),
      List.find? (fun p => p.1 == c)
        (cells.map fun p =>
          match List.find? (fun q => q.1 == p.1) [(a, b)] with
          | some q => (q.2, p.2)
          | none => p) =
        List.find? (fun p => p.1 == c) cells := by
  intro cells
  induction cells with
  | nil => rfl
  | cons p ps ih =>
    rw [List.map_cons]
    by_cases hpa : (a == p.1) = true
    · have hpa2 : a = p.1 := by simpa using hpa
      have hfind : List.find? (fun q => q.1 == p.1) [(a, b)] = some (a, b) := by
        simp [hpa2]
      have hb : ((b : String) == c) = false := by
        simpa using Ne.symm hcb
      have hpne : ((p.1 : String) == c) = false := by
        rw [← hpa2]
        simpa using Ne.symm hca
      rw [hfind]
      simp only [List.find?_cons, hb, hpne]
      exact ih
    · have hfind : List.find? (fun q => q.1 == p.1) [(a, b)] = none := by
        have hab : ((a, b).1 == p.1) = false := by simpa using hpa
        simp [List.find?_cons, hab]
      rw [hfind]
      by_cases hp : (p.1 == c) = true
      · simp only [List.find?_cons, hp]
      · have hp2 : (p.1 == c) = false := by
          cases h : (p.1 == c) with
          | true => exact absurd h hp
          | false => rfl
        simp only [List.find?_cons, hp2]
        exact ih

/-- A single rename leaves unrelated columns untouched. -/
theorem Record.get?_rename_of_ne (r : Record) (a b c : String)
    (hca : c ≠ a) (hcb : c ≠ b) :
    (r.rename_columns [(a, b)]).get? c = r.get? c := by
  simp only [Record.rename_columns, Record.get?]
  rw [findCell_rename a b c hca hcb]

/-- A record made of concatenated cells reads the left cells first. -/
theorem Record.get?_append (c1 c2 : List (String × Int)) (c : String) :
    (Record.mk (c1 ++ c2)).get? c =
      ((Record.mk c1).get? c).orElse (fun _ => (Record.mk c2).get? c) := by
  unfold Record.get?
  rw [List.find?_append]
  cases (c1.find? fun p => p.1 == c) <;> rfl

/-- A successful `findEarliest` returns a member satisfying the stamp
condition. -/
theorem findEarliest_some (key : String) (lv : Int) :
    ∀ (rs : List Record) (acc : Option Record) (r : Record),
      rs.foldl (fun acc r =>
        if r.hasColumn key = true ∧ lv ≤ r.get key then
          match acc with
          | none => some r
          | some best => if r.get key < best.get key then some r else acc
        else acc) acc = some r →
      acc = some r ∨ (r ∈ rs ∧ r.hasColumn key = true ∧ lv ≤ r.get key) := by
  intro rs
  induction rs with
  | nil => intro acc r h; exact Or.inl h
  | cons x xs ih =>
    intro acc r h
    rw [List.foldl_cons] at h
    rcases ih _ r h with hacc | hgood
    · by_cases hx : x.hasColumn key = true ∧ lv ≤ x.get key
      · rw [if_pos hx] at hacc
        cases acc with
        | none =>
          have : x = r := by simpa using hacc
          exact Or.inr ⟨this ▸ List.mem_cons_self x xs, this ▸ hx.1, this ▸ hx.2⟩
        | some best =>
          dsimp only at hacc
          by_cases hlt : x.get key < best.get key
          · rw [if_pos hlt] at hacc
            have : x = r := by simpa using hacc
            exact Or.inr ⟨this ▸ List.mem_cons_self x xs, this ▸ hx.1, this ▸ hx.2⟩
          · rw [if_neg hlt] at hacc
            exact Or.inl hacc
      · rw [if_neg hx] at hacc
        exact Or.inl hacc
    · exact Or.inr ⟨List.mem_cons_of_mem x hgood.1, hgood.2⟩

/-- Insertion produces a permutation of consing. -/
theorem insertByKey_perm (key : String) (r : Record) :
    ∀ l : List Record, (insertByKey key r l).Perm (r :: l) := by
  intro l
  induction l with
  | nil => exact List.Perm.refl _
  | cons x xs ih =>
    simp only [insertByKey]
    split
    · exact List.Perm.refl _
    · exact ((ih.cons x).trans (List.Perm.swap r x xs))

/-- Sorting is a permutation. -/
theorem sortByKey_perm (key : String) :
    ∀ l : List Record, (sortByKey key l).Perm l := by
  intro l
  induction l with
  | nil => exact List.Perm.refl _
  | cons x xs ih =>
    exact (insertByKey_perm key x (sortByKey key xs)).trans (ih.cons x)

/-- Insertion preserves ascending order. -/
theorem insertByKey_sorted (key : String) (r : Record) :
    ∀ l : List Record,
      List.Pairwise (fun a b => a.get key ≤ b.get key) l →
      List.Pairwise (fun a b => a.get key ≤ b.get key) (insertByKey key r l) := by
  intro l
  induction l with
  | nil => intro _; simp [insertByKey]
  | cons x xs ih =>
    intro hp
    have hp' := List.pairwise_cons.mp hp
    simp only [insertByKey]
    split
    · rename_i hle
      refine List.pairwise_cons.mpr ⟨?_, hp⟩
      intro y hy
      rcases List.mem_cons.mp hy with hh | ht
      · exact hh ▸ hle
      · exact le_trans hle (hp'.1 y ht)
    · rename_i hgt
      refine List.pairwise_cons.mpr ⟨?_, ih hp'.2⟩
      intro y hy
      have hy2 := (insertByKey_perm key r xs).mem_iff.mp hy
      rcases List.mem_cons.mp hy2 with hh | ht
      · rw [hh]; omega
      · exact hp'.1 y ht

/-- The sort yields ascending stamp order. -/
theorem sortByKey_sorted (key : String) :
    ∀ l : List Record,
      List.Pairwise (fun a b => a.get key ≤ b.get key) (sortByKey key l) := by
  intro l
  induction l with
  | nil => simp [sortByKey]
  | cons x xs ih => exact insertByKey_sorted key x _ ih

/-- Survivors of the executor-conflict resolution come from the input. -/
theorem keepLastPerAddr_sub : ∀ l : List CbgRow, ∀ x ∈ keepLastPerAddr l, x ∈ l := by
  intro l
  induction l with
  | nil => intro x hx; cases hx
  | cons r rest ih =>
    intro x hx
    simp only [keepLastPerAddr] at hx
    split at hx
    · exact List.mem_cons_of_mem r (ih x hx)
    · rcases List.mem_cons.mp hx with hh | ht
      · exact hh ▸ List.mem_cons_self r rest
      · exact List.mem_cons_of_mem r (ih x ht)

/-- After the executor-conflict resolution every address appears at most
once. -/
theorem keepLastPerAddr_nodup :
    ∀ l : List CbgRow, ((keepLastPerAddr l).map CbgRow.callback_group_addr).Nodup := by
  intro l
  induction l with
  | nil => exact List.nodup_nil
  | cons r rest ih =>
    simp only [keepLastPerAddr]
    split
    · exact ih
    · rename_i hany
      rw [List.map_cons, List.nodup_cons]
      refine ⟨?_, ih⟩
      intro hmem
      obtain ⟨x, hx, hxe⟩ := List.mem_map.mp hmem
      exact hany (List.any_eq_true.mpr
        ⟨x, keepLastPerAddr_sub rest x hx, by simp [hxe]⟩)

/-- The surviving row of each address group is the last row of the group. -/
theorem keepLastPerAddr_filter :
    ∀ (l : List CbgRow) (a : Nat),
      (keepLastPerAddr l).filter (fun r => r.callback_group_addr == a) =
        ((l.filter fun r => r.callback_group_addr == a).getLast?).toList := by
  intro l
  induction l with
  | nil => intro a; rfl
  | cons r rest ih =>
    intro a
    simp only [keepLastPerAddr]
    by_cases hra : r.callback_group_addr = a
    · by_cases hany : rest.any (fun x =>
          x.callback_group_addr == r.callback_group_addr) = true
      · rw [if_pos hany, ih a]
        have hne : (rest.filter fun x => x.callback_group_addr == a) ≠ [] := by
          obtain ⟨x, hx, hxe⟩ := List.any_eq_true.mp hany
          intro hcontra
          have : x ∈ rest.filter fun x => x.callback_group_addr == a :=
            List.mem_filter.mpr ⟨hx, by
              have : x.callback_group_addr = r.callback_group_addr := by simpa using hxe
              simp [this, hra]⟩
          rw [hcontra] at this
          cases this
        rw [List.filter_cons_of_pos (by simp [hra])]
        cases hrf : rest.filter fun x => x.callback_group_addr == a with
        | nil => exact absurd hrf hne
        | cons y ys => rw [List.getLast?_cons_cons]
      · rw [if_neg hany]
        have hrf : (rest.filter fun x => x.callback_group_addr == a) = [] := by
          rw [List.filter_eq_nil_iff]
          intro x hx
          intro hxe
          refine hany (List.any_eq_true.mpr ⟨x, hx, ?_⟩)
          have : x.callback_group_addr = a := by simpa using hxe
          simp [this, hra]
        rw [List.filter_cons_of_pos (by simp [hra]), ih a, hrf,
          List.filter_cons_of_pos (by simp [hra]), hrf]
        rfl
    · have hfr : ((r :: rest).filter fun x => x.callback_group_addr == a) =
          rest.filter fun x => x.callback_group_addr == a :=
        List.filter_cons_of_neg (by simp [hra])
      by_cases hany : rest.any (fun x =>
          x.callback_group_addr == r.callback_group_addr) = true
      · rw [if_pos hany, ih a, hfr]
      · rw [if_neg hany, List.filter_cons_of_neg (by simp [hra]), ih a, hfr]

/-- The executor-conflict resolution preserves the set of addresses. -/
theorem keepLastPerAddr_mem_addr :
    ∀ (l : List CbgRow) (a : Nat),
      a ∈ (keepLastPerAddr l).map CbgRow.callback_group_addr ↔
        a ∈ l.map CbgRow.callback_group_addr := by
  intro l
  induction l with
  | nil => intro a; simp [keepLastPerAddr]
  | cons r rest ih =>
    intro a
    simp only [keepLastPerAddr]
    split
    · rename_i hany
      rw [ih a, List.map_cons]
      constructor
      · exact List.mem_cons_of_mem _
      · intro h
        rcases List.mem_cons.mp h with hh | ht
        · obtain ⟨x, hx, hxe⟩ := List.any_eq_true.mp hany
          refine List.mem_map.mpr ⟨x, hx, ?_⟩
          have : x.callback_group_addr = r.callback_group_addr := by simpa using hxe
          rw [this, ← hh]
        · exact ht
    · rw [List.map_cons, List.map_cons, List.mem_cons, List.mem_cons, ih a]

/-- Zero executor-conflict warnings exactly when no address repeats among
the deduplicated rows. -/
theorem cbgWarnCount_eq_zero_iff (rows : List CbgRow) :
    cbgWarnCount rows = 0 ↔ (rows.map CbgRow.callback_group_addr).Nodup := by
  have hcount : ∀ a : Nat, (rows.map CbgRow.callback_group_addr).count a =
      (rows.filter fun r => r.callback_group_addr == a).length := by
    intro a
    rw [List.count_eq_countP, List.countP_map, List.countP_eq_length_filter]
    rfl
  unfold cbgWarnCount
  rw [List.length_eq_zero, List.filter_eq_nil_iff, List.nodup_iff_count_le_one]
  constructor
  · intro h a
    by_cases ha : a ∈ rows.map CbgRow.callback_group_addr
    · have hle := h a (List.mem_dedup.mpr ha)
      simp only [decide_eq_true_eq] at hle
      rw [hcount a]
      omega
    · rw [List.count_eq_zero_of_not_mem ha]
      omega
  · intro h a _
    have hle := h a
    rw [hcount a] at hle
    simp only [decide_eq_true_eq]
    omega

/-! ### Heap-model lemmas: store preservation, fresh-cell dereferencing, and
adequacy of the heap search with respect to the pure embedding. -/

theorem storePreserves_refl (s : Store) : StorePreserves s s :=
  ⟨Nat.le_refl _, fun _ _ => rfl⟩

theorem storePreserves_trans {s t u : Store} (h1 : StorePreserves s t)
    (h2 : StorePreserves t u) : StorePreserves s u :=
  ⟨Nat.le_trans h1.1 h2.1,
   fun i hi => (h2.2 i (Nat.lt_of_lt_of_le hi h1.1)).trans (h1.2 i hi)⟩

theorem storePreserves_append (s t : Store) :
    StorePreserves s (List.append s t) := by
  refine ⟨?_, ?_⟩
  · show s.length ≤ (s ++ t).length
    rw [List.length_append]
    omega
  · intro i hi
    exact List.get?_append hi

theorem storePreserves_set {s s1 : Store} (h : StorePreserves s s1) (r : Nat)
    (hr : Store.size s ≤ r) (v : GraphBranch) :
    StorePreserves s (s1.set r v) := by
  refine ⟨?_, ?_⟩
  · show Store.size s ≤ (s1.set r v).length
    rw [List.length_set]
    exact h.1
  · intro i hi
    rw [List.get?_set_ne v s1 (by omega)]
    exact h.2 i hi

theorem markFirstRefArrived_length (s1 : Store) (bval : GraphBranch)
    (refs : List Nat) :
    Store.size (markFirstRefArrived s1 bval refs) = Store.size s1 := by
  induction refs with
  | nil => rfl
  | cons r rest ih =>
    unfold markFirstRefArrived
    split
    · show (s1.set r _).length = s1.length
      exact List.length_set s1 r _
    · exact ih

theorem markFirstRefArrived_get?_not_mem (s1 : Store) (bval : GraphBranch)
    (refs : List Nat) (j : Nat) (hj : j ∉ refs) :
    (markFirstRefArrived s1 bval refs).get? j = s1.get? j := by
  induction refs with
  | nil => rfl
  | cons r rest ih =>
    have hjr : r ≠ j := fun h => hj (h ▸ List.mem_cons_self r rest)
    have hjrest : j ∉ rest := fun h => hj (List.mem_cons_of_mem r h)
    unfold markFirstRefArrived
    split
    · exact List.get?_set_ne _ _ hjr
    · exact ih hjrest

theorem storePreserves_markFirstRefArrived {s s1 : Store}
    (h : StorePreserves s s1) (bval : GraphBranch) (refs : List Nat)
    (hge : ∀ r ∈ refs, Store.size s ≤ r) :
    StorePreserves s (markFirstRefArrived s1 bval refs) := by
  induction refs with
  | nil => exact h
  | cons r rest ih =>
    unfold markFirstRefArrived
    split
    · exact storePreserves_set h r (hge r (List.mem_cons_self r rest)) _
    · exact ih (fun x hx => hge x (List.mem_cons_of_mem r hx))

theorem derefB_preserved {s s' : Store} (h : StorePreserves s s') (r : Nat)
    (hr : r < Store.size s) : derefB s' r = derefB s r := by
  unfold derefB
  rw [h.2 r hr]

theorem derefList_preserved {s s' : Store} (h : StorePreserves s s')
    (refs : List Nat) (hv : ValidRefs s refs) :
    derefList s' refs = derefList s refs :=
  List.map_congr_left fun r hr => derefB_preserved h r (hv r hr)

theorem derefPaths_preserved {s s' : Store} (h : StorePreserves s s')
    (paths : List (List Nat)) (hv : ∀ p ∈ paths, ValidRefs s p) :
    derefPaths s' paths = derefPaths s paths :=
  List.map_congr_left fun p hp => derefList_preserved h p (hv p hp)

theorem validRefs_preserved {s s' : Store} (h : StorePreserves s s')
    (refs : List Nat) (hv : ValidRefs s refs) : ValidRefs s' refs :=
  fun r hr => Nat.lt_of_lt_of_le (hv r hr) h.1

theorem freshRefs_length (base n : Nat) : (freshRefs base n).length = n := by
  induction n generalizing base with
  | zero => rfl
  | succ n ih => simp [freshRefs, ih]

theorem mem_freshRefs {base n j : Nat} (hj : j ∈ freshRefs base n) :
    base ≤ j ∧ j < base + n := by
  induction n generalizing base with
  | zero => simp [freshRefs] at hj
  | succ n ih =>
    simp only [freshRefs, List.mem_cons] at hj
    rcases hj with h | h
    · omega
    · have := ih h
      omega

theorem derefList_freshRefs (X : Store) (vals : List GraphBranch) :
    ∀ (base : Nat), (∀ i, i < vals.length → X.get? (base + i) = vals.get? i) →
      derefList X (freshRefs base vals.length) = vals := by
  induction vals with
  | nil => intro base _; rfl
  | cons v vs ih =>
    intro base h
    have h0 : X.get? base = some v := by
      have h1 := h 0 (by simp)
      simpa using h1
    show derefB X base :: derefList X (freshRefs (base + 1) vs.length) = v :: vs
    congr 1
    · unfold derefB
      rw [h0]
      rfl
    · refine ih (base + 1) ?_
      intro i hi
      have h2 : base + 1 + i = base + (i + 1) := by omega
      rw [h2]
      exact h (i + 1) (by simp only [List.length_cons]; omega)

theorem derefList_markFirstRefArrived (X : Store) (bval : GraphBranch)
    (vals : List GraphBranch) :
    ∀ (base : Nat), (∀ i, i < vals.length → X.get? (base + i) = vals.get? i) →
      derefList (markFirstRefArrived X bval (freshRefs base vals.length))
          (freshRefs base vals.length) = markFirstArrived bval vals := by
  induction vals with
  | nil => intro base _; rfl
  | cons v vs ih =>
    intro base h
    have h0 : X.get? base = some v := by
      have h1 := h 0 (by simp)
      simpa using h1
    have hbase_lt : base < X.length := by
      by_contra hge
      rw [List.get?_eq_none.mpr (by omega)] at h0
      cases h0
    have hderef : derefB X base = v := by
      unfold derefB
      rw [h0]
      rfl
    have htail : ∀ i, i < vs.length → X.get? (base + 1 + i) = vs.get? i := by
      intro i hi
      have h2 : base + 1 + i = base + (i + 1) := by omega
      rw [h2]
      exact h (i + 1) (by simp only [List.length_cons]; omega)
    show derefList (markFirstRefArrived X bval (base :: freshRefs (base + 1) vs.length))
        (base :: freshRefs (base + 1) vs.length) = markFirstArrived bval (v :: vs)
    unfold markFirstRefArrived markFirstArrived
    rw [hderef]
    by_cases hb : GraphBranch.beq v bval = true
    · rw [if_pos hb, if_pos hb]
      show derefB (X.set base { v with arrived := true }) base ::
          derefList (X.set base { v with arrived := true })
            (freshRefs (base + 1) vs.length) = { v with arrived := true } :: vs
      congr 1
      · unfold derefB
        rw [List.get?_set_eq_of_lt _ hbase_lt]
        rfl
      · refine derefList_freshRefs _ vs (base + 1) ?_
        intro i hi
        rw [List.get?_set_ne _ _ (by omega)]
        exact htail i hi
    · rw [if_neg hb, if_neg hb]
      show derefB (markFirstRefArrived X bval (freshRefs (base + 1) vs.length)) base ::
          derefList (markFirstRefArrived X bval (freshRefs (base + 1) vs.length))
            (freshRefs (base + 1) vs.length) = v :: markFirstArrived bval vs
      congr 1
      · have hnm : base ∉ freshRefs (base + 1) vs.length := by
          intro hmem
          have := mem_freshRefs hmem
          omega
        unfold derefB
        rw [markFirstRefArrived_get?_not_mem X bval _ base hnm, h0]
        rfl
      · exact ih (base + 1) htail

theorem copyStore_size (s : Store) (refs : List Nat) :
    Store.size (copyStore s refs) = Store.size s + refs.length := by
  show (s ++ derefList s refs).length = s.length + refs.length
  rw [List.length_append]
  unfold derefList
  rw [List.length_map]

theorem copyStore_get? (s : Store) (refs : List Nat) (i : Nat) :
    (copyStore s refs).get? (Store.size s + i) = (derefList s refs).get? i := by
  show (s ++ derefList s refs).get? (s.length + i) = (derefList s refs).get? i
  rw [List.get?_append_right (by omega)]
  congr 1
  omega

theorem markStore_size (s : Store) (branchRefs : List Nat) (r : Nat) :
    Store.size (markStore s branchRefs r) = Store.size s + branchRefs.length := by
  unfold markStore
  rw [markFirstRefArrived_length, copyStore_size]

theorem storePreserves_markStore (s : Store) (branchRefs : List Nat) (r : Nat) :
    StorePreserves s (markStore s branchRefs r) := by
  unfold markStore
  refine storePreserves_markFirstRefArrived (storePreserves_append s _) _ _ ?_
  intro x hx
  exact (mem_freshRefs hx).1

theorem storePreserves_pathStore (s : Store) (branchRefs pathRefs : List Nat)
    (r : Nat) : StorePreserves s (pathStore s branchRefs pathRefs r) :=
  storePreserves_trans (storePreserves_markStore s branchRefs r)
    (storePreserves_append _ _)

theorem pathStore_size (s : Store) (branchRefs pathRefs : List Nat) (r : Nat) :
    Store.size (pathStore s branchRefs pathRefs r)
      = Store.size s + branchRefs.length + pathRefs.length := by
  unfold pathStore
  rw [copyStore_size, markStore_size]

theorem derefList_copyRefs_markStore (s : Store) (branchRefs : List Nat) (r : Nat) :
    derefList (markStore s branchRefs r) (freshRefs (Store.size s) branchRefs.length)
      = markFirstArrived (derefB s r) (derefList s branchRefs) := by
  have hlen : branchRefs.length = (derefList s branchRefs).length := by
    unfold derefList
    rw [List.length_map]
  unfold markStore
  rw [hlen]
  refine derefList_markFirstRefArrived _ _ _ (Store.size s) ?_
  intro i hi
  exact copyStore_get? s branchRefs i

theorem derefList_fresh_pathStore (s : Store) (branchRefs pathRefs : List Nat)
    (r : Nat) (hpath : ValidRefs s pathRefs) :
    derefList (pathStore s branchRefs pathRefs r)
        (freshRefs (Store.size (markStore s branchRefs r)) pathRefs.length)
      = derefList s pathRefs := by
  have hpre : StorePreserves s (markStore s branchRefs r) :=
    storePreserves_markStore s branchRefs r
  have hlen : pathRefs.length = (derefList (markStore s branchRefs r) pathRefs).length := by
    unfold derefList
    rw [List.length_map]
  unfold pathStore
  rw [hlen]
  rw [derefList_freshRefs _ _ (Store.size (markStore s branchRefs r))
    (fun i hi => copyStore_get? (markStore s branchRefs r) pathRefs i)]
  exact derefList_preserved hpre pathRefs hpath

theorem derefList_cons (s : Store) (r : Nat) (rest : List Nat) :
    derefList s (r :: rest) = derefB s r :: derefList s rest := rfl

theorem derefList_append (s : Store) (a b : List Nat) :
    derefList s (a ++ b) = derefList s a ++ derefList s b :=
  List.map_append _ _ _

theorem derefPaths_append_single (s : Store) (accs : List (List Nat))
    (p : List Nat) :
    derefPaths s (accs ++ [p]) = derefPaths s accs ++ [derefList s p] := by
  unfold derefPaths
  rw [List.map_append]
  rfl

theorem search_loopH_adequate
    (next : GraphNode → List Nat → List Nat → List (List Nat) → Store →
      Option (Store × List (List Nat)))
    (nextP : GraphNode → List GraphBranch → List GraphBranch →
      List (List GraphBranch) → Option (List (List GraphBranch)))
    (hnext : ∀ node pr br accs s, ValidRefs s pr → ValidRefs s br →
      (∀ p ∈ accs, ValidRefs s p) →
      ((next node pr br accs s).map (fun q => derefPaths q.1 q.2)
          = nextP node (derefList s pr) (derefList s br) (derefPaths s accs)) ∧
      (∀ s' out, next node pr br accs s = some (s', out) →
        StorePreserves s s' ∧ ∀ p ∈ out, ValidRefs s' p))
    (pathRefs branchRefs : List Nat) :
    ∀ (iterRefs : List Nat) (accs : List (List Nat)) (s : Store),
      ValidRefs s pathRefs → ValidRefs s branchRefs → ValidRefs s iterRefs →
      (∀ p ∈ accs, ValidRefs s p) →
      ((search_loopH next pathRefs branchRefs iterRefs accs s).map
            (fun q => derefPaths q.1 q.2)
          = search_loop nextP (derefList s pathRefs) (derefList s branchRefs)
              (derefList s iterRefs) (derefPaths s accs)) ∧
      (∀ s' out,
        search_loopH next pathRefs branchRefs iterRefs accs s = some (s', out) →
        StorePreserves s s' ∧ ∀ p ∈ out, ValidRefs s' p) := by
  intro iterRefs
  induction iterRefs with
  | nil =>
    intro accs s _ _ _ haccs
    refine ⟨rfl, ?_⟩
    intro s' out h
    simp only [search_loopH, Option.some.injEq, Prod.mk.injEq] at h
    obtain ⟨hs, ha⟩ := h
    subst hs
    subst ha
    exact ⟨storePreserves_refl s, haccs⟩
  | cons r rest ih =>
    intro accs s hpath hbr hiter haccs
    have hr : r < Store.size s := hiter r (List.mem_cons_self r rest)
    have hrest : ValidRefs s rest := fun x hx => hiter x (List.mem_cons_of_mem r hx)
    by_cases harr : (derefB s r).arrived = true
    · have hH : search_loopH next pathRefs branchRefs (r :: rest) accs s
          = search_loopH next pathRefs branchRefs rest accs s := by
        conv_lhs => rw [search_loopH]
        rw [if_pos harr]
      have hP : search_loop nextP (derefList s pathRefs) (derefList s branchRefs)
            (derefList s (r :: rest)) (derefPaths s accs)
          = search_loop nextP (derefList s pathRefs) (derefList s branchRefs)
              (derefList s rest) (derefPaths s accs) := by
        rw [derefList_cons]
        conv_lhs => rw [search_loop]
        rw [if_pos harr]
      rw [hH, hP]
      exact ih accs s hpath hbr hrest haccs
    · have hpre3 : StorePreserves s (pathStore s branchRefs pathRefs r) :=
        storePreserves_pathStore s branchRefs pathRefs r
      have hpre23 : StorePreserves (markStore s branchRefs r)
          (pathStore s branchRefs pathRefs r) := storePreserves_append _ _
      have hvalid_copy : ValidRefs (pathStore s branchRefs pathRefs r)
          (freshRefs (Store.size s) branchRefs.length) := by
        intro x hx
        have hxb := mem_freshRefs hx
        rw [pathStore_size]
        omega
      have hvalid_path2 : ValidRefs (pathStore s branchRefs pathRefs r)
          (freshRefs (Store.size (markStore s branchRefs r)) pathRefs.length ++ [r]) := by
        intro x hx
        rw [pathStore_size]
        rcases List.mem_append.mp hx with hx1 | hx1
        · have hxb := mem_freshRefs hx1
          rw [markStore_size] at hxb
          omega
        · have hx2 : x = r := by simpa using hx1
          have hr2 := hr
          rw [Store.size] at hr2
          subst hx2
          unfold Store.size at hr ⊢
          omega
      have haccs3 : ∀ p ∈ accs, ValidRefs (pathStore s branchRefs pathRefs r) p :=
        fun p hp => validRefs_preserved hpre3 p (haccs p hp)
      have hd_copy : derefList (pathStore s branchRefs pathRefs r)
            (freshRefs (Store.size s) branchRefs.length)
          = markFirstArrived (derefB s r) (derefList s branchRefs) := by
        have hv2 : ValidRefs (markStore s branchRefs r)
            (freshRefs (Store.size s) branchRefs.length) := by
          intro x hx
          have hxb := mem_freshRefs hx
          rw [markStore_size]
          omega
        rw [derefList_preserved hpre23 _ hv2]
        exact derefList_copyRefs_markStore s branchRefs r
      have hd_path2 : derefList (pathStore s branchRefs pathRefs r)
            (freshRefs (Store.size (markStore s branchRefs r)) pathRefs.length ++ [r])
          = derefList s pathRefs ++ [derefB s r] := by
        rw [derefList_append]
        congr 1
        · exact derefList_fresh_pathStore s branchRefs pathRefs r hpath
        · rw [derefList_cons]
          rw [derefB_preserved hpre3 r hr]
          rfl
      have hd_accs : derefPaths (pathStore s branchRefs pathRefs r) accs
          = derefPaths s accs := derefPaths_preserved hpre3 accs haccs
      obtain ⟨hmap, hpres⟩ := hnext (derefB s r).dst_node
        (freshRefs (Store.size (markStore s branchRefs r)) pathRefs.length ++ [r])
        (freshRefs (Store.size s) branchRefs.length) accs
        (pathStore s branchRefs pathRefs r) hvalid_path2 hvalid_copy haccs3
      rw [hd_path2, hd_copy, hd_accs] at hmap
      cases hnx : next (derefB s r).dst_node
          (freshRefs (Store.size (markStore s branchRefs r)) pathRefs.length ++ [r])
          (freshRefs (Store.size s) branchRefs.length) accs
          (pathStore s branchRefs pathRefs r) with
      | none =>
        rw [hnx] at hmap
        simp only [Option.map_none'] at hmap
        have hH : search_loopH next pathRefs branchRefs (r :: rest) accs s = none := by
          conv_lhs => rw [search_loopH]
          rw [if_neg harr, hnx]
        constructor
        · rw [hH]
          simp only [Option.map_none']
          rw [derefList_cons]
          conv_rhs => rw [search_loop]
          rw [if_neg harr, ← hmap]
        · intro s' out h
          rw [hH] at h
          cases h
      | some q =>
        obtain ⟨s4, accs2⟩ := q
        rw [hnx] at hmap
        simp only [Option.map_some'] at hmap
        obtain ⟨hp34, hacc2⟩ := hpres s4 accs2 hnx
        have hs4 : StorePreserves s s4 := storePreserves_trans hpre3 hp34
        have ihres := ih accs2 s4 (validRefs_preserved hs4 pathRefs hpath)
          (validRefs_preserved hs4 branchRefs hbr)
          (validRefs_preserved hs4 rest hrest) hacc2
        have hH : search_loopH next pathRefs branchRefs (r :: rest) accs s
            = search_loopH next pathRefs branchRefs rest accs2 s4 := by
          conv_lhs => rw [search_loopH]
          rw [if_neg harr, hnx]
        constructor
        · rw [hH, ihres.1,
            derefList_preserved hs4 pathRefs hpath,
            derefList_preserved hs4 branchRefs hbr,
            derefList_preserved hs4 rest hrest,
            derefList_cons]
          conv_rhs => rw [search_loop]
          rw [if_neg harr, ← hmap]
        · intro s' out h
          rw [hH] at h
          obtain ⟨hp4s', hvout⟩ := ihres.2 s' out h
          exact ⟨storePreserves_trans hs4 hp4s', hvout⟩

theorem search_localH_adequate (dst : GraphNode) (fuel : Nat) :
    ∀ (node : GraphNode) (pathRefs branchRefs : List Nat)
      (accs : List (List Nat)) (s : Store),
      ValidRefs s pathRefs → ValidRefs s branchRefs →
      (∀ p ∈ accs, ValidRefs s p) →
      ((search_localH dst fuel node pathRefs branchRefs accs s).map
            (fun q => derefPaths q.1 q.2)
          = search_local dst fuel node (derefList s pathRefs)
              (derefList s branchRefs) (derefPaths s accs)) ∧
      (∀ s' out,
        search_localH dst fuel node pathRefs branchRefs accs s = some (s', out) →
        StorePreserves s s' ∧ ∀ p ∈ out, ValidRefs s' p) := by
  induction fuel with
  | zero =>
    intro node pathRefs branchRefs accs s _ _ _
    exact ⟨rfl, fun s' out h => by cases h⟩
  | succ fuel ih =>
    intro node pathRefs branchRefs accs s hpath hbr haccs
    have hiter : ValidRefs s (branchRefs.filter fun x => (derefB s x).src_node == node) :=
      fun x hx => hbr x (List.mem_of_mem_filter hx)
    have hfilter : derefList s (branchRefs.filter fun x => (derefB s x).src_node == node)
        = (derefList s branchRefs).filter fun x => x.src_node == node := by
      unfold derefList
      rw [List.filter_map]
      rfl
    by_cases hcond : node = dst ∧ 0 < pathRefs.length
    · have hcondP : node = dst ∧ 0 < (derefList s pathRefs).length := by
        refine ⟨hcond.1, ?_⟩
        unfold derefList
        rw [List.length_map]
        exact hcond.2
      have haccs1 : ∀ p ∈ accs ++ [pathRefs], ValidRefs s p := by
        intro p hp
        rcases List.mem_append.mp hp with h | h
        · exact haccs p h
        · have hp2 : p = pathRefs := by simpa using h
          subst hp2
          exact hpath
      have hmain := search_loopH_adequate (search_localH dst fuel)
        (search_local dst fuel) ih pathRefs branchRefs
        (branchRefs.filter fun x => (derefB s x).src_node == node)
        (accs ++ [pathRefs]) s hpath hbr hiter haccs1
      have hH : search_localH dst (Nat.succ fuel) node pathRefs branchRefs accs s
          = search_loopH (search_localH dst fuel) pathRefs branchRefs
              (branchRefs.filter fun x => (derefB s x).src_node == node)
              (accs ++ [pathRefs]) s := by
        unfold search_localH
        rw [if_pos hcond]
      have hP : search_local dst (Nat.succ fuel) node (derefList s pathRefs)
            (derefList s branchRefs) (derefPaths s accs)
          = search_loop (search_local dst fuel) (derefList s pathRefs)
              (derefList s branchRefs)
              ((derefList s branchRefs).filter fun x => x.src_node == node)
              (derefPaths s accs ++ [derefList s pathRefs]) := by
        unfold search_local
        rw [if_pos hcondP]
      constructor
      · rw [hH, hP, ← hfilter, ← derefPaths_append_single]
        exact hmain.1
      · intro s' out h
        rw [hH] at h
        exact hmain.2 s' out h
    · have hcondP : ¬(node = dst ∧ 0 < (derefList s pathRefs).length) := by
        intro hc
        refine hcond ⟨hc.1, ?_⟩
        have hl := hc.2
        rw [derefList, List.length_map] at hl
        exact hl
      have hmain := search_loopH_adequate (search_localH dst fuel)
        (search_local dst fuel) ih pathRefs branchRefs
        (branchRefs.filter fun x => (derefB s x).src_node == node)
        accs s hpath hbr hiter haccs
      have hH : search_localH dst (Nat.succ fuel) node pathRefs branchRefs accs s
          = search_loopH (search_localH dst fuel) pathRefs branchRefs
              (branchRefs.filter fun x => (derefB s x).src_node == node) accs s := by
        unfold search_localH
        rw [if_neg hcond]
      have hP : search_local dst (Nat.succ fuel) node (derefList s pathRefs)
            (derefList s branchRefs) (derefPaths s accs)
          = search_loop (search_local dst fuel) (derefList s pathRefs)
              (derefList s branchRefs)
              ((derefList s branchRefs).filter fun x => x.src_node == node)
              (derefPaths s accs) := by
        unfold search_local
        rw [if_neg hcondP]
      constructor
      · rw [hH, hP, ← hfilter]
        exact hmain.1
      · intro s' out h
        rw [hH] at h
        exact hmain.2 s' out h

/-- Adequacy of the heap model: the heap search's recorded paths,
dereferenced in the final store, are exactly the pure embedding's result on
the dereferenced branch list, and the store prefix existing before the call
is preserved. -/
theorem searchH_adequate (s : Store) (branchRefs : List Nat)
    (src_node dst_node : GraphNode) (fuel : Nat) (hv : ValidRefs s branchRefs) :
    ((searchH s branchRefs src_node dst_node fuel).map
          (fun q => derefPaths q.1 q.2)
        = GraphSearcher.search (derefList s branchRefs) src_node dst_node fuel) ∧
    (∀ s' out, searchH s branchRefs src_node dst_node fuel = some (s', out) →
      StorePreserves s s' ∧ ∀ p ∈ out, ValidRefs s' p) := by
  have h := search_localH_adequate dst_node fuel src_node [] branchRefs [] s
    (fun x hx => absurd hx (List.not_mem_nil x)) hv
    (fun p hp => absurd hp (List.not_mem_nil p))
  exact h

/-! Concrete callbacks and communications for witnesses. -/

/-- The store produced by `searchH` on the two-branch cycle `A→B→A`,
searched from `A` to `A`: the two original cells are untouched and five
copies were allocated. -/
def c10StoreOut : Store :=
  [branchAB, branchBA,
   { branchAB with arrived := true }, branchBA,
   { branchAB with arrived := true }, { branchBA with arrived := true },
   branchAB]


def cbT : CallbackBase := { callback_unique_name := "t" }

def cbL : CallbackBase := { callback_unique_name := "l" }

def commTL : Communication := { callback_publish := some cbT, callback_subscription := cbL }

/-! ## Claims -/

/-- C1: for every pair of callback unique names `(s, e)`, every path
returned by `CallbackPathSercher.search(s, e)` — equivalently, every graph
path returned by `GraphSearcher.search` over the branch set built from
communications and variable passings — is non-empty, starts at the callback
uniquely named `s` and ends at the callback uniquely named `e`. -/
theorem C1_endpoint_invariant
    (callbacks : List CallbackBase) (communications : List Communication)
    (variable_passings : List VariablePassing) (s e : String) (fuel : Nat) :
    (∀ gres, GraphSearcher.search (buildBranches communications variable_passings)
        { name := s } { name := e } fuel = some gres →
      ∀ gp ∈ gres, GoodPath { name := s } { name := e } gp) ∧
    (∀ res, CallbackPathSercher.search callbacks communications variable_passings
        s e fuel = some res →
      ∀ p ∈ res, 0 < p.length ∧
        p.head?.map CallbackBase.callback_unique_name = some s ∧
        p.getLast?.map CallbackBase.callback_unique_name = some e) := by
  have hgraph : ∀ gres, GraphSearcher.search (buildBranches communications variable_passings)
      { name := s } { name := e } fuel = some gres →
      ∀ gp ∈ gres, GoodPath { name := s } { name := e } gp := by
    intro gres hrun
    exact search_local_good { name := s } { name := e } fuel { name := s } [] _ [] gres
      (fun _ => rfl) (fun b1 h => by cases h) (fun bn h => by cases h)
      (fun p hp => absurd hp (List.not_mem_nil p)) hrun
  refine ⟨hgraph, ?_⟩
  intro res hrun p hp
  unfold CallbackPathSercher.search at hrun
  cases hg : GraphSearcher.search (buildBranches communications variable_passings)
      { name := s } { name := e } fuel with
  | none => rw [hg] at hrun; cases hrun
  | some gps =>
    rw [hg] at hrun
    simp only [Option.bind_eq_bind, Option.some_bind] at hrun
    obtain ⟨gp, hgp, htp⟩ := mapM_option_mem (to_path callbacks) gps res hrun p hp
    obtain ⟨hlen, hhead, hlast⟩ := hgraph gps hg gp hgp
    cases gp with
    | nil => simp at hlen
    | cons b rest =>
      have hbsrc : b.src_node = { name := s } := by
        simp only [List.head?_cons] at hhead
        simpa using hhead
      obtain ⟨bn, hbn, hbne⟩ : ∃ bn, (b :: rest).getLast? = some bn ∧
          bn.dst_node = { name := e } := by
        cases hgl : (b :: rest).getLast? with
        | none => rw [List.getLast?_eq_none_iff] at hgl; cases hgl
        | some bn => rw [hgl] at hlast; exact ⟨bn, rfl, by simpa using hlast⟩
      unfold to_path at htp
      have hnodes : to_graph_nodes (b :: rest) =
          b.src_node :: (b :: rest).map (fun x => x.dst_node) := rfl
      rw [hnodes] at htp
      refine ⟨?_, ?_, ?_⟩
      · have := mapM_option_length _ _ _ htp
        simp [this]
      · obtain ⟨y, hy, hyh⟩ := mapM_option_head _ _ _ _ htp
        rw [hyh]
        have := lookupCallback_name callbacks _ y hy
        rw [hbsrc] at this
        simp [this]
      · have hnlast : (b.src_node :: (b :: rest).map (fun x => x.dst_node)).getLast? =
            some { name := e } := by
          rw [List.map_cons, List.getLast?_cons_cons, ← List.map_cons, List.getLast?_map,
            hbn]
          simp [hbne]
        obtain ⟨c, hc, hcl⟩ := mapM_option_getLast _ _ _ _ htp hnlast
        rw [hcl]
        have := lookupCallback_name callbacks _ c hc
        simp [this]

/-- C1 witness: a concrete talker/listener style instance. -/
theorem C1_endpoint_invariant_witness :
    0 < [cbT, cbL].length ∧
      [cbT, cbL].head?.map CallbackBase.callback_unique_name = some "t" ∧
      [cbT, cbL].getLast?.map CallbackBase.callback_unique_name = some "l" :=
  (C1_endpoint_invariant [cbT, cbL] [commTL] [] "t" "l" 10).2 [[cbT, cbL]]
    (by decide) [cbT, cbL] (by simp)

/-- C2 counterexample: with two textually distinct branch instances sharing
the endpoints (A, B) plus a back edge (B, A), `GraphSearcher.search(A, B)`
returns the path `[A→B, B→A, A→B]`, which uses the edge (A, B) twice, so the
no-edge-reuse invariant fails for inputs with duplicated edge pairs. -/
theorem C2_counterexample :
    GraphSearcher.search [branchAB, branchAB, branchBA] nodeA nodeB 20 =
      some [[branchAB], [branchAB, branchBA, branchAB],
        [branchAB], [branchAB, branchBA, branchAB]] ∧
    ¬ (([branchAB, branchBA, branchAB].map edgePair).Nodup) := by
  constructor
  · decide
  · decide

/-- C2 (amended): if no two branches of the searcher's input share the same
(source, destination) pair, then no path returned by `GraphSearcher.search`
repeats a (source, destination) pair; equivalently the number of distinct
edges of a returned path equals its length. -/
theorem C2_no_edge_reuse (branches : List GraphBranch) (src dst : GraphNode)
    (fuel : Nat) (res : List (List GraphBranch))
    (hnd : (branches.map edgePair).Nodup)
    (hrun : GraphSearcher.search branches src dst fuel = some res) :
    ∀ p ∈ res, (p.map edgePair).Nodup ∧ (p.map edgePair).dedup.length = p.length := by
  intro p hp
  have hnodup : (p.map edgePair).Nodup :=
    search_local_nodup dst fuel src [] branches [] res hnd
      (fun x hx => absurd hx (List.not_mem_nil x))
      (by simp) (fun q hq => absurd hq (List.not_mem_nil q)) hrun p hp
  refine ⟨hnodup, ?_⟩
  rw [List.Nodup.dedup hnodup, List.length_map]

/-- C2 witness: a duplicate-free two-branch cycle. -/
theorem C2_no_edge_reuse_witness :
    (([branchAB].map edgePair).Nodup ∧ ([branchAB].map edgePair).dedup.length =
      [branchAB].length) :=
  C2_no_edge_reuse [branchAB, branchBA] nodeA nodeB 10 [[branchAB]]
    (by decide) (by decide) [branchAB] (by simp)

/-- C3: `GraphSearcher.search` never returns a length-0 path, even when the
source equals the destination; reaching the destination with a non-empty
path records it and keeps exploring outgoing edges, so on the cycle A→B→A
the query (A, A) returns exactly the length-2 path `[A→B, B→A]`, and on
A→B, B→C, C→B the query (A, B) additionally returns the strictly longer walk
`[A→B, B→C, C→B]` that passes through the destination and continues. -/
theorem C3_no_empty_path_and_cycles :
    (∀ (fuel : Nat) (branches : List GraphBranch) (src dst : GraphNode)
      (res : List (List GraphBranch)),
      GraphSearcher.search branches src dst fuel = some res →
      ∀ p ∈ res, 0 < p.length) ∧
    GraphSearcher.search [branchAB, branchBA] nodeA nodeA 10 =
      some [[branchAB, branchBA]] ∧
    GraphSearcher.search [branchAB, branchBC, branchCB] nodeA nodeB 10 =
      some [[branchAB], [branchAB, branchBC, branchCB]] := by
  refine ⟨?_, by decide, by decide⟩
  intro fuel branches src dst res hrun p hp
  exact (search_local_good src dst fuel src [] branches [] res
    (fun _ => rfl) (fun b1 h => by cases h) (fun bn h => by cases h)
    (fun q hq => absurd hq (List.not_mem_nil q)) hrun p hp).1

/-- C3 witness: the general no-empty-path part applied to the concrete
cycle instance. -/
theorem C3_no_empty_path_witness : 0 < [branchAB, branchBA].length :=
  C3_no_empty_path_and_cycles.1 10 [branchAB, branchBA] nodeA nodeA
    [[branchAB, branchBA]] (by decide) [branchAB, branchBA] (by simp)

/-- C4 counterexample: publisher `pubW` is timing-consistent with BOTH timer
callbacks, yet after one timer binder pass only the first callback is bound
— the publisher's topic name ends up at the HEAD of that callback's input
`publish_topic_names` — while the second callback, despite its consistent
candidate publisher, is left with the empty tuple, because the `break`
exits the whole publisher × callback loop.  In the subscription pass the
bound callback's input topics are NOT preserved: the pass enumerates the
already-reset callback list, so the bound callback ends with exactly the
publisher's topic name. -/
theorem C4_counterexample :
    PublisherBinder.is_consistent srcW pubW (.timer cb1P) = true ∧
    PublisherBinder.is_consistent srcW pubW (.timer cb2P) = true ∧
    bind_pub_topics_and_timer_cbs srcW [pubW] [cb1P, cb2P] =
      [{ cb1P with publish_topic_names := some ["/t", "/x"] },
       { cb2P with publish_topic_names := some [] }] ∧
    PublisherBinder.is_consistent srcW pubW (.sub sub1W) = true ∧
    PublisherBinder.is_consistent srcW pubW (.sub sub2W) = true ∧
    bind_pub_topics_and_sub_cbs srcW [pubW] [sub1W, sub2W] =
      [{ sub1W with publish_topic_names := some ["/t"] },
       { sub2W with publish_topic_names := some [] }] :=
  ⟨by decide, by decide, by decide, by decide, by decide, by decide⟩

/-- C4 (amended): in a single call to `bind_pub_topics_and_timer_cbs` with
distinct callback ids, every callback first has `publish_topic_names` reset
to the empty tuple; then only the FIRST consistent (publisher, callback)
pair in publisher × callback enumeration order is bound — the publisher's
topic name is prepended to that callback's input `publish_topic_names` —
and the whole pass stops, leaving every other callback with the empty
tuple.  `bind_pub_topics_and_sub_cbs` has the same reset /
first-consistent-pair / `break` structure over the subscription list with
system-topic subscriptions removed, but its enumeration ranges over the
already-reset callback list, so the single bound callback receives exactly
the publisher's topic name as its whole tuple: its input topics are not
preserved. -/
theorem C4_one_binding_per_pass (source : RecordsSource)
    (publishers : List PublisherValueLttng)
    (callbacks : List TimerCallbackValueLttng)
    (subs : List SubscriptionCallbackValueLttng)
    (hnd : (callbacks.map TimerCallbackValueLttng.callback_id).Nodup)
    (hnds : ((subs.filter fun x =>
        !(["/parameter_events", "/rosout", "/clock"].contains
          x.subscribe_topic_name)).map
        SubscriptionCallbackValueLttng.callback_id).Nodup) :
    (((publishers.filter fun x => x.topic_name != "/parameter_events" &&
        x.topic_name != "/rosout").product callbacks).find?
        (fun pc => PublisherBinder.is_consistent source pc.1 (.timer pc.2)) = none →
      bind_pub_topics_and_timer_cbs source publishers callbacks =
        callbacks.map resetTimerTopics) ∧
    (∀ (p : PublisherValueLttng) (c : TimerCallbackValueLttng),
      ((publishers.filter fun x => x.topic_name != "/parameter_events" &&
        x.topic_name != "/rosout").product callbacks).find?
        (fun pc => PublisherBinder.is_consistent source pc.1 (.timer pc.2)) =
          some (p, c) →
      PublisherBinder.is_consistent source p (.timer c) = true ∧
      bind_pub_topics_and_timer_cbs source publishers callbacks =
        callbacks.map fun x => if x.callback_id = c.callback_id then
          { c with publish_topic_names := some (p.topic_name :: c.publish_topic_names.getD []) }
          else resetTimerTopics x) ∧
    (((publishers.filter fun x =>
        !(["/parameter_events", "/rosout", "/clock"].contains x.topic_name)).product
        ((subs.filter fun x =>
          !(["/parameter_events", "/rosout", "/clock"].contains
            x.subscribe_topic_name)).map resetSubTopics)).find?
        (fun pc => PublisherBinder.is_consistent source pc.1 (.sub pc.2)) = none →
      bind_pub_topics_and_sub_cbs source publishers subs =
        (subs.filter fun x =>
          !(["/parameter_events", "/rosout", "/clock"].contains
            x.subscribe_topic_name)).map resetSubTopics) ∧
    (∀ (p : PublisherValueLttng) (c : SubscriptionCallbackValueLttng),
      ((publishers.filter fun x =>
        !(["/parameter_events", "/rosout", "/clock"].contains x.topic_name)).product
        ((subs.filter fun x =>
          !(["/parameter_events", "/rosout", "/clock"].contains
            x.subscribe_topic_name)).map resetSubTopics)).find?
        (fun pc => PublisherBinder.is_consistent source pc.1 (.sub pc.2)) =
          some (p, c) →
      PublisherBinder.is_consistent source p (.sub c) = true ∧
      c.publish_topic_names = some [] ∧
      bind_pub_topics_and_sub_cbs source publishers subs =
        (subs.filter fun x =>
          !(["/parameter_events", "/rosout", "/clock"].contains
            x.subscribe_topic_name)).map
          fun x => if x.callback_id = c.callback_id then
            { c with publish_topic_names := some [p.topic_name] }
            else resetSubTopics x) := by
  have hfold := foldl_update_timer_reset callbacks hnd
  have hfolds := foldl_update_sub_reset (subs.filter fun x =>
    !(["/parameter_events", "/rosout", "/clock"].contains
      x.subscribe_topic_name)) hnds
  refine ⟨?_, ?_, ?_, ?_⟩
  · intro hfind
    unfold bind_pub_topics_and_timer_cbs
    simp only [hfind, hfold]
  · intro p c hfind
    refine ⟨by simpa using List.find?_some hfind, ?_⟩
    unfold bind_pub_topics_and_timer_cbs
    simp only [hfind, hfold]
    have hids : ((callbacks.map resetTimerTopics).map
        TimerCallbackValueLttng.callback_id) =
        callbacks.map TimerCallbackValueLttng.callback_id := by
      rw [List.map_map]
      exact List.map_congr_left fun x _ => rfl
    rw [update_timer_eq_map c _ (callbacks.map resetTimerTopics) (by rw [hids]; exact hnd),
      List.map_map]
    exact List.map_congr_left fun x _ => rfl
  · intro hfind
    unfold bind_pub_topics_and_sub_cbs
    simp only [hfolds, hfind]
  · intro p c hfind
    have hmem : (p, c) ∈ (publishers.filter fun x =>
        !(["/parameter_events", "/rosout", "/clock"].contains x.topic_name)).product
        ((subs.filter fun x =>
          !(["/parameter_events", "/rosout", "/clock"].contains
            x.subscribe_topic_name)).map resetSubTopics) :=
      List.mem_of_find?_eq_some hfind
    obtain ⟨x0, _, hx0e⟩ := List.mem_map.mp (List.pair_mem_product.mp hmem).2
    have hpub : c.publish_topic_names = some [] := by
      rw [← hx0e]
      rfl
    refine ⟨by simpa using List.find?_some hfind, hpub, ?_⟩
    unfold bind_pub_topics_and_sub_cbs
    simp only [hfolds, hfind]
    rw [hpub]
    simp only [Option.getD_some]
    have hids : (((subs.filter fun x =>
        !(["/parameter_events", "/rosout", "/clock"].contains
          x.subscribe_topic_name)).map resetSubTopics).map
        SubscriptionCallbackValueLttng.callback_id) =
        (subs.filter fun x =>
          !(["/parameter_events", "/rosout", "/clock"].contains
            x.subscribe_topic_name)).map
          SubscriptionCallbackValueLttng.callback_id := by
      rw [List.map_map]
      exact List.map_congr_left fun x _ => rfl
    rw [update_sub_eq_map c [p.topic_name] _ (by rw [hids]; exact hnds),
      List.map_map]
    exact List.map_congr_left fun x _ => rfl

/-- C4 witness: the amended pass behaviour at the concrete two-callback
scenarios — the first consistent timer pair is `(pubW, cb1P)` and the first
consistent subscription pair is `(pubW, resetSubTopics sub1W)`. -/
theorem C4_one_binding_per_pass_witness :
    (PublisherBinder.is_consistent srcW pubW (.timer cb1P) = true ∧
     bind_pub_topics_and_timer_cbs srcW [pubW] [cb1P, cb2P] =
       [cb1P, cb2P].map fun x => if x.callback_id = cb1P.callback_id then
         { cb1P with publish_topic_names := some (pubW.topic_name :: cb1P.publish_topic_names.getD []) }
         else resetTimerTopics x) ∧
    (PublisherBinder.is_consistent srcW pubW (.sub (resetSubTopics sub1W)) = true ∧
     (resetSubTopics sub1W).publish_topic_names = some [] ∧
     bind_pub_topics_and_sub_cbs srcW [pubW] [sub1W, sub2W] =
       ([sub1W, sub2W].filter fun x =>
         !(["/parameter_events", "/rosout", "/clock"].contains
           x.subscribe_topic_name)).map
         fun x => if x.callback_id = (resetSubTopics sub1W).callback_id then
           { resetSubTopics sub1W with publish_topic_names := some [pubW.topic_name] }
           else resetSubTopics x) :=
  ⟨(C4_one_binding_per_pass srcW [pubW] [cb1P, cb2P] [sub1W, sub2W]
      (by decide) (by decide)).2.1 pubW cb1P (by decide),
   (C4_one_binding_per_pass srcW [pubW] [cb1P, cb2P] [sub1W, sub2W]
      (by decide) (by decide)).2.2.2 pubW (resetSubTopics sub1W) (by decide)⟩

/-- C5: `PublisherBinder.can_bind` returns `False` for every node (the
hardcoded fast path), the dead heuristic below it answers `True` only for a
single non-reentrant callback group, and consequently the binding guard of
`LttngInfo._get_timer_callbacks` never enriches any callback. -/
theorem C5_can_bind_disabled :
    (∀ node : NodeValue, PublisherBinder.can_bind node = false) ∧
    (∀ cbgs : List CallbackGroupValueLttng, can_bind_heuristic cbgs = true →
      cbgs.length = 1 ∧ ∀ cbg ∈ cbgs, cbg.callback_group_type_name ≠ "reentrant") ∧
    (∀ (source : RecordsSource) (node : NodeValue)
      (timer_cbs : List TimerCallbackValueLttng)
      (publishers : List PublisherValueLttng),
      get_timer_callbacks_with_binding source node timer_cbs publishers = timer_cbs) := by
  refine ⟨fun _ => rfl, ?_, ?_⟩
  · intro cbgs h
    match cbgs, h with
    | [cbg], h =>
      refine ⟨rfl, ?_⟩
      intro c hc
      have hcc : c = cbg := by simpa using hc
      subst hcc
      intro hre
      simp [can_bind_heuristic, hre] at h
  · intro source node timer_cbs publishers
    unfold get_timer_callbacks_with_binding
    rw [if_neg]
    intro hcontra
    simp [PublisherBinder.can_bind] at hcontra

/-- C5 witness: the heuristic conclusion at a concrete mutually exclusive
group. -/
theorem C5_can_bind_disabled_witness :
    [cbgW].length = 1 ∧ ∀ cbg ∈ [cbgW], cbg.callback_group_type_name ≠ "reentrant" :=
  C5_can_bind_disabled.2.1 [cbgW] (by decide)

/-- C6 counterexample: with the callback's execution records out of
chronological order, `_is_consistent` answers `False` even though the
publish time 3 lies strictly inside the recorded interval (1, 5): the scan
short-circuits on the earlier-listed interval (10, 11), which lies after the
publish time. -/
theorem C6_counterexample :
    PublisherBinder.get_publish_time srcU pubW = some 3 ∧
    (∃ r ∈ callbackRecordsFor srcU cbU.callback_object,
      r.hasColumn "callback_start_timestamp" = true ∧
      r.hasColumn "callback_end_timestamp" = true ∧
      r.get "callback_start_timestamp" < 3 ∧ (3:Int) < r.get "callback_end_timestamp") ∧
    PublisherBinder.is_consistent srcU pubW (.timer cbU) = false :=
  ⟨by decide, by decide, by decide⟩

/-- C6 (amended): for a pair with a defined publish timestamp, if the
callback's filtered execution records are in nondecreasing start-timestamp
order and some recorded interval strictly contains the publish timestamp,
`_is_consistent` returns `True`; and if every recorded interval of the
callback (under both the inter- and intra-process identities) has ended
strictly before the publish timestamp, it returns `False`. -/
theorem C6_binder_consistency (source : RecordsSource) (pub : PublisherValueLttng)
    (cb : CallbackValueLttng) (pt : Int)
    (hpt : PublisherBinder.get_publish_time source pub = some pt) :
    (List.Pairwise (fun a b => a.get "callback_start_timestamp" ≤
        b.get "callback_start_timestamp") (callbackRecordsFor source cb.callback_object) →
      (∃ r ∈ callbackRecordsFor source cb.callback_object,
        r.hasColumn "callback_start_timestamp" = true ∧
        r.hasColumn "callback_end_timestamp" = true ∧
        r.get "callback_start_timestamp" < pt ∧ pt < r.get "callback_end_timestamp") →
      PublisherBinder.is_consistent source pub cb = true) ∧
    ((∀ r ∈ callbackRecordsFor source cb.callback_object,
        r.hasColumn "callback_start_timestamp" = true →
        r.hasColumn "callback_end_timestamp" = true →
        r.get "callback_end_timestamp" < pt) →
      (∀ scb, cb = CallbackValueLttng.sub scb →
        ∀ r ∈ intraRecordsFor source scb.callback_object_intra,
          r.hasColumn "callback_start_timestamp" = true →
          r.hasColumn "callback_end_timestamp" = true →
          r.get "callback_end_timestamp" < pt) →
      PublisherBinder.is_consistent source pub cb = false) := by
  constructor
  · intro hsort hex
    have hloop := is_consistent_loop_contains pt _ hsort hex
    simp [PublisherBinder.is_consistent, hpt, PublisherBinder.is_consistent_inter, hloop]
  · intro h1 h2
    have hnone := is_consistent_loop_after pt _ h1
    cases cb with
    | timer t =>
      simp [PublisherBinder.is_consistent, hpt, PublisherBinder.is_consistent_inter,
        hnone]
    | sub s =>
      have hintra := is_consistent_intra_loop_after pt _ (h2 s rfl)
      simp [PublisherBinder.is_consistent, hpt, PublisherBinder.is_consistent_inter,
        PublisherBinder.is_consistent_intra, hnone, hintra]

/-- C6 witness: the chronologically ordered version of the same records
answers `True`. -/
theorem C6_binder_consistency_witness :
    PublisherBinder.is_consistent srcS pubW (.timer cbU) = true :=
  (C6_binder_consistency srcS pubW (.timer cbU) 3 (by decide)).1 (by decide) (by decide)

/-- C7 counterexample: with raw rows binding group address 1 to executors
10, 20, 10 in that order, the retained row carries executor 20 (the last row
AFTER exact-duplicate removal keeping first occurrences), while the
last-observed raw row carries executor 10 — so "only the last-observed row
is retained" fails as stated. -/
theorem C7_counterexample :
    (build_cbg_df [cbgR1, cbgR2, cbgR1] [] []).1 =
      [{ callback_group_id := "callback_group_1", callback_group_addr := 1,
         group_type_name := "mutually_exclusive", executor_addr := 20 }] ∧
    [cbgR1, cbgR2, cbgR1].getLast? = some cbgR1 ∧
    cbgR1.executor_addr = 10 ∧ (10 : Nat) ≠ 20 := by
  refine ⟨by decide, by decide, by decide, by decide⟩

/-- C7 (amended): in the formatted callback-group table, every
`callback_group_addr` appears in exactly one row (pairwise-distinct
addresses, and exactly the addresses of the deduplicated input); the
retained row of each address is the LAST row among the distinct rows (exact
duplicates removed keeping first occurrences); and a non-fatal warning is
counted exactly when some address carries more than one distinct row. -/
theorem C7_cbg_executor_dedup (callback_groups : List CbgRawRow)
    (cbg_static : List CbgStaticRow) (exec_static : List ExecutorStaticRow) :
    (((build_cbg_df callback_groups cbg_static exec_static).1.map
      CbgRow.callback_group_addr).Nodup) ∧
    (∀ a, a ∈ (build_cbg_df callback_groups cbg_static exec_static).1.map
        CbgRow.callback_group_addr ↔
      a ∈ (cbgRowsDedup callback_groups cbg_static exec_static).map
        CbgRow.callback_group_addr) ∧
    (∀ a, (build_cbg_df callback_groups cbg_static exec_static).1.filter
        (fun r => r.callback_group_addr == a) =
      ((cbgRowsDedup callback_groups cbg_static exec_static).filter
        (fun r => r.callback_group_addr == a)).getLast?.toList) ∧
    ((build_cbg_df callback_groups cbg_static exec_static).2 = 0 ↔
      ((cbgRowsDedup callback_groups cbg_static exec_static).map
        CbgRow.callback_group_addr).Nodup) := by
  refine ⟨keepLastPerAddr_nodup _, fun a => keepLastPerAddr_mem_addr _ a,
    fun a => keepLastPerAddr_filter _ a, cbgWarnCount_eq_zero_iff _⟩

/-- C8: a missing upstream table (the `KeyError` condition) degrades the
timer-callback and subscription-callback tables to empty tables rather than
a raised failure; the callback-group family built over empty callback
tables is the empty list; and each builder is unaffected by the tables of
the other family. -/
theorem C8_missing_data_degradation :
    (∀ data : Ros2DataModel,
      data.timers = none ∨ data.timer_node_links = none ∨
      data.callback_objects = none ∨ data.callback_symbols = none ∨
      data.callback_group_timer = none →
      build_timer_callbacks_df data = []) ∧
    (∀ data : Ros2DataModel,
      data.subscriptions = none ∨ data.subscription_objects = none ∨
      data.callback_objects = none ∨ data.callback_symbols = none ∨
      data.callback_group_subscription = none →
      build_sub_callbacks_df data = []) ∧
    (∀ (nodes_df : List NodeRow) (cbg_df : List CbgRow)
      (id_to_topic : List (String × String)) (node_id : String),
      get_callback_groups [] [] nodes_df cbg_df id_to_topic node_id = []) ∧
    (∀ (data : Ros2DataModel) (t : Option (List TimerRow))
      (tl : Option (List TimerNodeLinkRow))
      (cgt : Option (List CallbackGroupTimerRow)),
      build_sub_callbacks_df
        { data with
            timers := t, timer_node_links := tl, callback_group_timer := cgt } =
        build_sub_callbacks_df data) ∧
    (∀ (data : Ros2DataModel) (s : Option (List SubscriptionRow))
      (so : Option (List SubscriptionObjectRow))
      (cgs : Option (List CallbackGroupSubscriptionRow)),
      build_timer_callbacks_df
        { data with
            subscriptions := s, subscription_objects := so,
            callback_group_subscription := cgs } =
        build_timer_callbacks_df data) := by
  refine ⟨?_, ?_, ?_, fun _ _ _ _ => rfl, fun _ _ _ _ => rfl⟩
  · intro data h
    unfold build_timer_callbacks_df
    rcases h with h | h | h | h | h <;> rw [h] <;>
      cases data.timers <;> cases data.timer_node_links <;>
      cases data.callback_objects <;> cases data.callback_symbols <;> rfl
  · intro data h
    unfold build_sub_callbacks_df
    rcases h with h | h | h | h | h <;> rw [h] <;>
      cases data.subscriptions <;> cases data.subscription_objects <;>
      cases data.callback_objects <;> cases data.callback_symbols <;> rfl
  · intro nodes_df cbg_df id_to_topic node_id
    rfl

/-- C8 witness: the degradation at a concrete data model whose timer table
is absent. -/
theorem C8_missing_data_degradation_witness :
    build_timer_callbacks_df dataW = [] :=
  C8_missing_data_degradation.1 dataW (Or.inl rfl)

/-- C9: the variable-passing record stream is sorted ascending by
`callback_end_timestamp`; each write record contributes exactly one output
row (in particular at most one); a write whose end timestamp is strictly
later than every read start timestamp yields a row with the read side
absent; and the renamed identity columns are stripped from the output. -/
theorem C9_sequential_join (write_records read_records : List Record) :
    (compose_variable_passing_records write_records read_records).length =
      write_records.length ∧
    List.Pairwise (fun a b => a.get "callback_end_timestamp" ≤
      b.get "callback_end_timestamp")
      (compose_variable_passing_records write_records read_records) ∧
    (∀ r ∈ compose_variable_passing_records write_records read_records,
      r.hasColumn "read_callback_object" = false ∧
      r.hasColumn "write_callback_object" = false) ∧
    (∀ r ∈ compose_variable_passing_records write_records read_records,
      (∀ rr ∈ read_records, rr.hasColumn "callback_start_timestamp" = true →
        rr.get "callback_start_timestamp" < r.get "callback_end_timestamp") →
      r.hasColumn "callback_start_timestamp" = false) := by
  have hdropend : ∀ r : Record,
      (r.drop_columns ["read_callback_object", "write_callback_object"]).get
        "callback_end_timestamp" = r.get "callback_end_timestamp" := by
    intro r
    unfold Record.get
    rw [Record.get?_drop_columns r _ _ (by decide)]
  have hf3 : ∀ rr0 : Record,
      (((rr0.drop_columns ["callback_end_timestamp"]).rename_columns
        [("callback_object", "read_callback_object")]).get?
          "callback_start_timestamp") = rr0.get? "callback_start_timestamp" := by
    intro rr0
    rw [Record.get?_rename_of_ne _ _ _ _ (by decide) (by decide),
      Record.get?_drop_columns _ _ _ (by decide)]
  have hreadend : ∀ rr0 : Record,
      (((rr0.drop_columns ["callback_end_timestamp"]).rename_columns
        [("callback_object", "read_callback_object")]).get?
          "callback_end_timestamp") = none := by
    intro rr0
    rw [Record.get?_rename_of_ne _ _ _ _ (by decide) (by decide)]
    have := Record.hasColumn_drop_columns_of_mem rr0 ["callback_end_timestamp"]
      "callback_end_timestamp" (by decide)
    rw [Record.hasColumn_eq_isSome] at this
    cases hg : (rr0.drop_columns ["callback_end_timestamp"]).get?
        "callback_end_timestamp" with
    | none => rfl
    | some v => rw [hg] at this; cases this
  unfold compose_variable_passing_records
  simp only []
  refine ⟨?_, ?_, ?_, ?_⟩
  · rw [List.length_map,
      (sortByKey_perm "callback_end_timestamp" _).length_eq]
    unfold merge_sequencial
    rw [List.length_map, List.length_map]
  · rw [List.pairwise_map]
    refine List.Pairwise.imp ?_
      (sortByKey_sorted "callback_end_timestamp" _)
    intro a b hab
    rw [hdropend, hdropend]
    exact hab
  · intro r hr
    obtain ⟨m, _, rfl⟩ := List.mem_map.mp hr
    exact ⟨Record.hasColumn_drop_columns_of_mem m _ _ (by decide),
      Record.hasColumn_drop_columns_of_mem m _ _ (by decide)⟩
  · intro r hr hno
    obtain ⟨m, hm, rfl⟩ := List.mem_map.mp hr
    have hmm : m ∈ merge_sequencial
        (write_records.map fun r =>
          (r.rename_columns [("callback_object", "write_callback_object")]).drop_columns
            ["callback_start_timestamp"])
        (read_records.map fun r =>
          (r.drop_columns ["callback_end_timestamp"]).rename_columns
            [("callback_object", "read_callback_object")])
        "callback_end_timestamp" "callback_start_timestamp" :=
      (sortByKey_perm "callback_end_timestamp" _).mem_iff.mp hm
    unfold merge_sequencial at hmm
    obtain ⟨w2, hw2, hmw⟩ := List.mem_map.mp hmm
    have hw2start : w2.hasColumn "callback_start_timestamp" = false := by
      obtain ⟨w, _, rfl⟩ := List.mem_map.mp hw2
      exact Record.hasColumn_drop_columns_of_mem _ _ _ (by decide)
    cases hE : findEarliest "callback_start_timestamp"
        (w2.get "callback_end_timestamp")
        (read_records.map fun r =>
          (r.drop_columns ["callback_end_timestamp"]).rename_columns
            [("callback_object", "read_callback_object")]) with
    | none =>
      rw [hE] at hmw
      rw [← hmw]
      rw [Record.hasColumn_eq_isSome,
        Record.get?_drop_columns _ _ _ (by decide)]
      rw [Record.hasColumn_eq_isSome] at hw2start
      exact hw2start
    | some rr2 =>
      exfalso
      rw [hE] at hmw
      have hgood := findEarliest_some "callback_start_timestamp"
        (w2.get "callback_end_timestamp") _ none rr2
        (by simpa [findEarliest] using hE)
      rcases hgood with hcontra | ⟨hrrmem, hrrcol, hrrle⟩
      · cases hcontra
      · obtain ⟨rr0, hrr0, rfl⟩ := List.mem_map.mp hrrmem
        have hmend : m.get "callback_end_timestamp" =
            w2.get "callback_end_timestamp" := by
          rw [← hmw]
          unfold Record.get
          rw [Record.get?_append, hreadend rr0]
          cases hg : w2.get? "callback_end_timestamp" <;> rfl
        have hrr0col : rr0.hasColumn "callback_start_timestamp" = true := by
          rw [Record.hasColumn_eq_isSome] at hrrcol ⊢
          rw [← hf3 rr0]
          exact hrrcol
        have hrr0get : rr0.get "callback_start_timestamp" <
            (m.drop_columns ["read_callback_object", "write_callback_object"]).get
              "callback_end_timestamp" := hno rr0 hrr0 hrr0col
        rw [hdropend, hmend] at hrr0get
        unfold Record.get at hrrle
        rw [hf3 rr0] at hrrle
        unfold Record.get at hrr0get
        omega

/-- C9 witness: a lone write with no read keeps an absent read side. -/
theorem C9_sequential_join_witness :
    outRec9.hasColumn "callback_start_timestamp" = false :=
  (C9_sequential_join [wRec9] []).2.2.2 outRec9 (by decide)
    (fun rr hrr => absurd hrr (List.not_mem_nil rr))

/-- C10: `GraphSearcher.search` does not mutate the searcher's branch set.
In the heap model, a completed run leaves every branch object the searcher
was constructed with unchanged (in particular a branch whose `arrived` flag
was `False` before the call still has it `False` after — consumed marks go
only to the per-recursion deep copies), and a second call with the same
`(src, dst)` arguments on the resulting store again completes, returning an
equal list of paths (equal branch-value sequences). -/
theorem C10_search_no_mutation (s : Store) (branchRefs : List Nat)
    (src_node dst_node : GraphNode) (fuel : Nat) (hvalid : ValidRefs s branchRefs)
    (s' : Store) (out : List (List Nat))
    (hrun : searchH s branchRefs src_node dst_node fuel = some (s', out)) :
    derefList s' branchRefs = derefList s branchRefs ∧
    (∀ r ∈ branchRefs, (derefB s r).arrived = false →
      (derefB s' r).arrived = false) ∧
    ∃ s'' out2, searchH s' branchRefs src_node dst_node fuel = some (s'', out2) ∧
      derefPaths s'' out2 = derefPaths s' out := by
  obtain ⟨hmap, hpres⟩ := searchH_adequate s branchRefs src_node dst_node fuel hvalid
  obtain ⟨hps, _⟩ := hpres s' out hrun
  have hd : derefList s' branchRefs = derefList s branchRefs :=
    derefList_preserved hps branchRefs hvalid
  refine ⟨hd, ?_, ?_⟩
  · intro r hr hfalse
    rw [derefB_preserved hps r (hvalid r hr)]
    exact hfalse
  · have hvalid' : ValidRefs s' branchRefs := validRefs_preserved hps branchRefs hvalid
    obtain ⟨hmap', _⟩ := searchH_adequate s' branchRefs src_node dst_node fuel hvalid'
    rw [hd] at hmap'
    rw [hrun] at hmap
    simp only [Option.map_some'] at hmap
    rw [← hmap] at hmap'
    obtain ⟨q, hq, hq2⟩ := Option.map_eq_some'.mp hmap'
    obtain ⟨s'', out2⟩ := q
    exact ⟨s'', out2, hq, hq2⟩

/-- Witness for C10 on the two-branch cycle `A→B→A` searched from `A` to
`A` with fuel 6: the two original branch cells survive unchanged with
`arrived = False`, and the second run returns the same dereferenced path
list. -/
theorem C10_search_no_mutation_witness :
    ValidRefs [branchAB, branchBA] [0, 1] ∧
    searchH [branchAB, branchBA] [0, 1] nodeA nodeA 6
      = some (c10StoreOut, [[6, 3]]) ∧
    (derefList c10StoreOut [0, 1] = derefList [branchAB, branchBA] [0, 1] ∧
     (∀ r ∈ [0, 1], (derefB [branchAB, branchBA] r).arrived = false →
        (derefB c10StoreOut r).arrived = false) ∧
     ∃ s'' out2, searchH c10StoreOut [0, 1] nodeA nodeA 6 = some (s'', out2) ∧
       derefPaths s'' out2 = derefPaths c10StoreOut [[6, 3]]) :=
  ⟨by decide, by decide,
   C10_search_no_mutation [branchAB, branchBA] [0, 1] nodeA nodeA 6 (by decide)
     c10StoreOut [[6, 3]] (by decide)⟩

end CaretAnalyze
